import Mathlib

/-!
Verification of the intrascale coordination plane.

A shallow embedding of the `intrascale` repository (peer discovery,
framed-JSON peer transport, resource-aware scheduler, remote executor),
together with proofs about the embedded code.

Source files modelled:
* `src/intrascale/connection.py`   (framing, handshake, peer table)
* `src/intrascale/discovery.py`    (UDP broadcast / listen loops)
* `src/intrascale/resource_manager.py` (task table, first-fit scheduling)
* `src/intrascale/executor.py`     (remote task execution)
* `src/intrascale/hardware.py`     (resource admission check)

Modelling conventions:
* Python dicts that are used as tables are modelled as insertion-ordered
  association lists (Python dicts preserve insertion order).
* Python floats are modelled as rationals; machine floating point is out
  of scope.
* JSON texts are modelled as `List Char`, wire bytes as `List Nat`
  (each < 256).
* Fallible Python code is modelled with `Option` / explicit error values.
-/

namespace Intrascale

/-- Python exception classes that the modelled code can raise or catch.
`attributeError` models `AttributeError` from accessing a missing
attribute, the others model the exceptions named in the source. -/
inductive PyErr where
  | attributeError
  | keyError
  | valueError
  | runtimeError
  | typeError
  deriving DecidableEq, Repr

/-! ## JSON values

Model of the Python `json`-encodable data that crosses the wire
(`json.dumps` / `json.loads` in `connection.py` and `discovery.py`).
Numbers are modelled as integers; floating-point JSON numbers are out of
scope of the shallow embedding. -/

/-- A JSON value: the model of the Python objects accepted by
`json.dumps` in `connection.py` / `discovery.py`.  Object fields keep
their order (Python dicts are insertion-ordered). -/
inductive Json where
  | null : Json
  | bool (b : Bool) : Json
  | num (n : Int) : Json
  | str (s : List Char) : Json
  | arr (elems : List Json) : Json
  | obj (fields : List (List Char × Json)) : Json

mutual

/-- Structural equality test on JSON values: the model of Python `==`
on the decoded objects. -/
def Json.beq : Json → Json → Bool
  | .null, .null => true
  | .bool a, .bool b => a == b
  | .num a, .num b => a == b
  | .str a, .str b => a == b
  | .arr a, .arr b => Json.beqArr a b
  | .obj a, .obj b => Json.beqObj a b
  | _, _ => false

/-- Elementwise equality of JSON arrays. -/
def Json.beqArr : List Json → List Json → Bool
  | [], [] => true
  | x :: xs, y :: ys => Json.beq x y && Json.beqArr xs ys
  | _, _ => false

/-- Fieldwise equality of JSON objects. -/
def Json.beqObj : List (List Char × Json) → List (List Char × Json) → Bool
  | [], [] => true
  | (k, v) :: xs, (k2, v2) :: ys => k == k2 && Json.beq v v2 && Json.beqObj xs ys
  | _, _ => false

end

instance : BEq Json := ⟨Json.beq⟩

/-- First binding of a key among the fields of a JSON object. -/
def jGetFields : List (List Char × Json) → List Char → Option Json
  | [], _ => none
  | (k', v) :: rest, k => if k' = k then some v else jGetFields rest k

/-- Lookup of a key in a JSON object: the model of Python `d[key]` /
`d.get(key)` on a decoded JSON value.  Returns `none` when the value is
not an object (Python raises `TypeError` / `AttributeError` there) or
the key is absent (`KeyError` / `None`). -/
def jGet : Json → List Char → Option Json
  | .obj fields, k => jGetFields fields k
  | _, _ => none

/-- Python truthiness of a JSON value (`if hostname:` in
`connection.py` line 102). -/
def jtruthy : Json → Bool
  | .null => false
  | .bool b => b
  | .num n => n ≠ 0
  | .str s => !s.isEmpty
  | .arr xs => !xs.isEmpty
  | .obj fields => !fields.isEmpty

/-! ## Decimal rendering of naturals

Model of the decimal integer rendering used both by `json.dumps` for
numbers and by the f-string `f"task_{len(self.tasks)}"` in
`resource_manager.py` line 59. -/

/-- The decimal digit character for `d` (`0`–`9`). -/
def digitChar : Nat → Char
  | 0 => '0'
  | 1 => '1'
  | 2 => '2'
  | 3 => '3'
  | 4 => '4'
  | 5 => '5'
  | 6 => '6'
  | 7 => '7'
  | 8 => '8'
  | _ => '9'

/-- Decimal rendering of a natural number, most significant digit
first. -/
def natToChars (n : Nat) : List Char :=
  if n < 10 then [digitChar n]
  else natToChars (n / 10) ++ [digitChar (n % 10)]
  decreasing_by exact Nat.div_lt_self (by omega) (by omega)

/-! ## JSON serialisation

Model of `json.dumps(message)` (compact separators; `json.dumps` with
its defaults additionally inserts a space after `,` and `:`, which is
immaterial to the round-trip property).  Strings are escaped for the
two structural metacharacters `"` and `\`. -/

/-- Escape of one string character inside a JSON string literal. -/
def escapeChar (c : Char) : List Char :=
  if c = '"' ∨ c = '\\' then ['\\', c] else [c]

/-- Escape of a whole string body. -/
def escapeStr : List Char → List Char
  | [] => []
  | c :: cs => escapeChar c ++ escapeStr cs

/-- Serialisation of a JSON string (quotes plus escaped body). -/
def serStr (s : List Char) : List Char :=
  '"' :: (escapeStr s ++ ['"'])

/-- The rendered text of the JSON literal `null`. -/
def litNull : List Char := ['n', 'u', 'l', 'l']

/-- The rendered text of the JSON literal `true`. -/
def litTrue : List Char := ['t', 'r', 'u', 'e']

/-- The rendered text of the JSON literal `false`. -/
def litFalse : List Char := ['f', 'a', 'l', 's', 'e']

mutual

/-- Serialisation of a JSON value: the model of `json.dumps`. -/
def serJson : Json → List Char
  | .null => litNull
  | .bool true => litTrue
  | .bool false => litFalse
  | .num n => if n < 0 then '-' :: natToChars n.natAbs else natToChars n.natAbs
  | .str s => serStr s
  | .arr [] => ['[', ']']
  | .arr (x :: xs) => '[' :: (serJson x ++ serArrTail xs)
  | .obj [] => ['{', '}']
  | .obj ((k, v) :: kvs) =>
      '{' :: (serStr k ++ ':' :: serJson v ++ serObjTail kvs)

/-- Serialisation of the remaining elements of a non-empty array
(each preceded by `,`, closed by `]`). -/
def serArrTail : List Json → List Char
  | [] => [']']
  | x :: xs => ',' :: (serJson x ++ serArrTail xs)

/-- Serialisation of the remaining fields of a non-empty object
(each preceded by `,`, closed by `}`). -/
def serObjTail : List (List Char × Json) → List Char
  | [] => ['}']
  | (k, v) :: kvs => ',' :: (serStr k ++ ':' :: serJson v ++ serObjTail kvs)

end

/-! ## JSON parsing

Model of `json.loads`.  The parser is written with an explicit fuel
argument (every descent into a subvalue consumes one unit); `loadsJson`
instantiates the fuel with the input length plus one, which is always
sufficient. -/

/-- Consume an expected literal character sequence (e.g. the `ull` of
`null`) from the input; `none` on mismatch. -/
def dropLit : List Char → List Char → Option (List Char)
  | [], s => some s
  | _ :: _, [] => none
  | c :: cs, d :: ds => if d = c then dropLit cs ds else none

/-- Consume a maximal run of decimal digits, accumulating their value
onto `acc`. -/
def parseDigits (acc : Nat) : List Char → Nat × List Char
  | [] => (acc, [])
  | c :: cs =>
    if c.isDigit then parseDigits (acc * 10 + (c.toNat - 48)) cs
    else (acc, c :: cs)

/-- Parse an unsigned decimal number (at least one digit required). -/
def parseNumCore (s : List Char) : Option (Nat × List Char) :=
  match s with
  | [] => none
  | c :: _ => if c.isDigit then some (parseDigits 0 s) else none

/-- Parse the body of a JSON string after the opening quote, undoing
the `\"` / `\\` escapes, up to and including the closing quote. -/
def parseStrBody : List Char → Option (List Char × List Char)
  | [] => none
  | c :: cs =>
    if c = '"' then some ([], cs)
    else if c = '\\' then
      match cs with
      | [] => none
      | e :: cs' =>
        if e = '"' ∨ e = '\\' then
          match parseStrBody cs' with
          | some (s, r) => some (e :: s, r)
          | none => none
        else none
    else
      match parseStrBody cs with
      | some (s, r) => some (c :: s, r)
      | none => none

mutual

/-- Parse one JSON value; returns the value and the unconsumed input. -/
def parseJsonAux : Nat → List Char → Option (Json × List Char)
  | 0, _ => none
  | _ + 1, [] => none
  | f + 1, c :: cs =>
    if c = 'n' then (dropLit ['u', 'l', 'l'] cs).map fun r => (.null, r)
    else if c = 't' then (dropLit ['r', 'u', 'e'] cs).map fun r => (.bool true, r)
    else if c = 'f' then (dropLit ['a', 'l', 's', 'e'] cs).map fun r => (.bool false, r)
    else if c = '"' then (parseStrBody cs).map fun p => (.str p.1, p.2)
    else if c = '-' then (parseNumCore cs).map fun p => (.num (-(p.1 : Int)), p.2)
    else if c = '[' then parseArrBody f cs
    else if c = '{' then parseObjBody f cs
    else (parseNumCore (c :: cs)).map fun p => (.num (p.1 : Int), p.2)

/-- Parse a JSON array after the opening bracket. -/
def parseArrBody : Nat → List Char → Option (Json × List Char)
  | _, [] => none
  | f, d :: ds =>
    if d = ']' then some (.arr [], ds)
    else (parseArrItems f (d :: ds)).map fun p => (.arr p.1, p.2)

/-- Parse a JSON object after the opening brace. -/
def parseObjBody : Nat → List Char → Option (Json × List Char)
  | _, [] => none
  | f, d :: ds =>
    if d = '}' then some (.obj [], ds)
    else (parseObjItems f (d :: ds)).map fun p => (.obj p.1, p.2)

/-- Parse the elements of a non-empty JSON array after the opening
bracket, up to and including the closing `]`. -/
def parseArrItems : Nat → List Char → Option (List Json × List Char)
  | 0, _ => none
  | f + 1, s =>
    (parseJsonAux f s).bind fun vr =>
      match vr.2 with
      | [] => none
      | c :: r' =>
        if c = ',' then (parseArrItems f r').map fun p => (vr.1 :: p.1, p.2)
        else if c = ']' then some ([vr.1], r')
        else none

/-- Parse the fields of a non-empty JSON object after the opening
brace, up to and including the closing `}`. -/
def parseObjItems : Nat → List Char → Option (List (List Char × Json) × List Char)
  | 0, _ => none
  | f + 1, s =>
    match s with
    | [] => none
    | c :: cs =>
      if c = '"' then
        (parseStrBody cs).bind fun kr =>
          match kr.2 with
          | [] => none
          | c2 :: r2 =>
            if c2 = ':' then
              (parseJsonAux f r2).bind fun vr =>
                match vr.2 with
                | [] => none
                | c3 :: r4 =>
                  if c3 = ',' then
                    (parseObjItems f r4).map fun p => ((kr.1, vr.1) :: p.1, p.2)
                  else if c3 = '}' then some ([(kr.1, vr.1)], r4)
                  else none
            else none
      else none

end

/-- The model of `json.loads(text)`: parse one JSON value and require
the whole input to be consumed (trailing garbage is a
`JSONDecodeError`, modelled as `none`). -/
def loadsJson (s : List Char) : Option Json :=
  match parseJsonAux (s.length + 1) s with
  | some (v, []) => some v
  | _ => none

/-! ### Round-trip lemmas for the JSON codec -/

/-- The input does not begin with a decimal digit (so a preceding
number parse stops exactly at its end). -/
def NoDigitHead : List Char → Prop
  | [] => True
  | c :: _ => c.isDigit = false

theorem dropLit_append (lit rest : List Char) :
    dropLit lit (lit ++ rest) = some rest := by
  induction lit with
  | nil => rfl
  | cons c cs ih => simp [dropLit, ih]

theorem digitChar_isDigit (d : Nat) : (digitChar d).isDigit = true := by
  rcases d with _ | _ | _ | _ | _ | _ | _ | _ | _ | d <;> first
  | decide
  | exact (by decide : ('9').isDigit = true)

theorem digitChar_toNat {d : Nat} (hd : d < 10) :
    (digitChar d).toNat = 48 + d := by
  interval_cases d <;> decide

theorem isDigit_toNat_bounds {c : Char} (h : c.isDigit = true) :
    48 ≤ c.toNat ∧ c.toNat ≤ 57 := by
  simp only [Char.isDigit, decide_eq_true_eq, Bool.and_eq_true] at h
  obtain ⟨h1, h2⟩ := h
  exact ⟨h1, h2⟩

theorem natToChars_head (n : Nat) :
    ∃ c t, natToChars n = c :: t ∧ c.isDigit = true := by
  induction n using Nat.strong_induction_on with
  | _ n ih =>
    rw [natToChars]
    by_cases h : n < 10
    · exact ⟨digitChar n, [], by simp [h], digitChar_isDigit n⟩
    · obtain ⟨c, t, heq, hdig⟩ := ih (n / 10) (Nat.div_lt_self (by omega) (by omega))
      exact ⟨c, t ++ [digitChar (n % 10)], by simp [h, heq], hdig⟩

theorem parseDigits_natToChars (n : Nat) :
    ∀ acc rest, parseDigits acc (natToChars n ++ rest)
      = parseDigits (acc * 10 ^ (natToChars n).length + n) rest := by
  induction n using Nat.strong_induction_on with
  | _ n ih =>
    intro acc rest
    rw [natToChars]
    by_cases h : n < 10
    · simp only [if_pos h, List.singleton_append, List.length_singleton]
      rw [parseDigits, if_pos (digitChar_isDigit n), digitChar_toNat h]
      congr 1
      omega
    · simp only [if_neg h, List.append_assoc, List.singleton_append,
        List.length_append, List.length_singleton]
      rw [ih (n / 10) (Nat.div_lt_self (by omega) (by omega))]
      rw [parseDigits, if_pos (digitChar_isDigit (n % 10)),
        digitChar_toNat (Nat.mod_lt n (by omega))]
      congr 1
      have : (10 : Nat) ^ ((natToChars (n / 10)).length + 1)
          = 10 ^ (natToChars (n / 10)).length * 10 := by ring
      rw [this]
      have hn : n = n / 10 * 10 + n % 10 := by omega
      ring_nf
      omega

theorem parseDigits_noDigit {rest : List Char} (h : NoDigitHead rest)
    (acc : Nat) : parseDigits acc rest = (acc, rest) := by
  cases rest with
  | nil => rfl
  | cons c cs =>
    simp only [NoDigitHead] at h
    rw [parseDigits, if_neg (by simp [h])]

theorem parseNumCore_natToChars (n : Nat) {rest : List Char}
    (h : NoDigitHead rest) :
    parseNumCore (natToChars n ++ rest) = some (n, rest) := by
  obtain ⟨c, t, heq, hdig⟩ := natToChars_head n
  rw [heq, List.cons_append, parseNumCore, if_pos hdig, ← List.cons_append,
    ← heq, parseDigits_natToChars, Nat.zero_mul, Nat.zero_add,
    parseDigits_noDigit h]

theorem parseStrBody_escape (s : List Char) :
    ∀ rest, parseStrBody (escapeStr s ++ '"' :: rest) = some (s, rest) := by
  induction s with
  | nil =>
    intro rest
    simp only [escapeStr, List.nil_append]
    rw [parseStrBody.eq_def]
    simp
  | cons c cs ih =>
    intro rest
    by_cases h : c = '"' ∨ c = '\\'
    · have hq : escapeChar c = ['\\', c] := by simp [escapeChar, h]
      simp only [escapeStr, hq, List.cons_append, List.nil_append]
      rw [parseStrBody.eq_def]
      simp [h, ih rest]
    · have hq : escapeChar c = [c] := by simp [escapeChar, h]
      push_neg at h
      simp only [escapeStr, hq, List.cons_append, List.nil_append]
      rw [parseStrBody.eq_def]
      simp [h.1, h.2, ih rest]

theorem natToChars_ne_nil (n : Nat) : natToChars n ≠ [] := by
  obtain ⟨c, t, heq, _⟩ := natToChars_head n
  simp [heq]

theorem serJson_length_pos (v : Json) : 1 ≤ (serJson v).length := by
  cases v with
  | null => simp [serJson, litNull]
  | bool b => cases b <;> simp [serJson, litTrue, litFalse]
  | num n =>
    rw [serJson]
    split
    · simp
    · exact List.length_pos.mpr (natToChars_ne_nil n.natAbs)
  | str s => simp [serJson, serStr]
  | arr xs => cases xs <;> simp [serJson]
  | obj kvs => rcases kvs with _ | ⟨⟨k, v⟩, kvs⟩ <;> simp [serJson]

theorem serArrTail_length_pos (xs : List Json) : 1 ≤ (serArrTail xs).length := by
  cases xs <;> simp [serArrTail]

theorem serObjTail_length_pos (kvs : List (List Char × Json)) :
    1 ≤ (serObjTail kvs).length := by
  rcases kvs with _ | ⟨⟨k, v⟩, kvs⟩ <;> simp [serObjTail]

theorem serJson_head (v : Json) :
    ∃ c t, serJson v = c :: t ∧
      (c = 'n' ∨ c = 't' ∨ c = 'f' ∨ c = '"' ∨ c = '-' ∨ c = '[' ∨ c = '{' ∨
        c.isDigit = true) := by
  cases v with
  | null => exact ⟨'n', _, rfl, by tauto⟩
  | bool b =>
    cases b
    · exact ⟨'f', _, rfl, by tauto⟩
    · exact ⟨'t', _, rfl, by tauto⟩
  | num n =>
    rw [serJson]
    by_cases h : n < 0
    · exact ⟨'-', natToChars n.natAbs, by simp [h], by tauto⟩
    · obtain ⟨c, t, heq, hdig⟩ := natToChars_head n.natAbs
      exact ⟨c, t, by simp [h, heq], by tauto⟩
  | str s => exact ⟨'"', _, rfl, by tauto⟩
  | arr xs =>
    cases xs with
    | nil => exact ⟨'[', _, rfl, by tauto⟩
    | cons x xs => exact ⟨'[', _, rfl, by tauto⟩
  | obj kvs =>
    rcases kvs with _ | ⟨⟨k, v⟩, kvs⟩
    · exact ⟨'{', _, rfl, by tauto⟩
    · exact ⟨'{', _, rfl, by tauto⟩

theorem noDigitHead_serArrTail (xs : List Json) (rest : List Char) :
    NoDigitHead (serArrTail xs ++ rest) := by
  cases xs <;> simp [serArrTail, NoDigitHead]

theorem noDigitHead_serObjTail (kvs : List (List Char × Json)) (rest : List Char) :
    NoDigitHead (serObjTail kvs ++ rest) := by
  rcases kvs with _ | ⟨⟨k, v⟩, kvs⟩ <;> simp [serObjTail, NoDigitHead]

theorem digit_ne_meta {c : Char} (h : c.isDigit = true) :
    c ≠ 'n' ∧ c ≠ 't' ∧ c ≠ 'f' ∧ c ≠ '"' ∧ c ≠ '-' ∧ c ≠ '[' ∧ c ≠ '{' ∧
      c ≠ ']' ∧ c ≠ '}' := by
  refine ⟨?_, ?_, ?_, ?_, ?_, ?_, ?_, ?_, ?_⟩ <;>
    (rintro rfl; exact absurd h (by decide))

theorem parseJsonAux_n (f : Nat) (cs : List Char) :
    parseJsonAux (f + 1) ('n' :: cs)
      = (dropLit ['u', 'l', 'l'] cs).map fun r => (Json.null, r) := by
  simp only [parseJsonAux]
  simp

theorem parseJsonAux_t (f : Nat) (cs : List Char) :
    parseJsonAux (f + 1) ('t' :: cs)
      = (dropLit ['r', 'u', 'e'] cs).map fun r => (Json.bool true, r) := by
  simp only [parseJsonAux]
  simp

theorem parseJsonAux_f (f : Nat) (cs : List Char) :
    parseJsonAux (f + 1) ('f' :: cs)
      = (dropLit ['a', 'l', 's', 'e'] cs).map fun r => (Json.bool false, r) := by
  simp only [parseJsonAux]
  simp

theorem parseJsonAux_quote (f : Nat) (cs : List Char) :
    parseJsonAux (f + 1) ('"' :: cs)
      = (parseStrBody cs).map fun p => (Json.str p.1, p.2) := by
  simp only [parseJsonAux]
  simp

theorem parseJsonAux_minus (f : Nat) (cs : List Char) :
    parseJsonAux (f + 1) ('-' :: cs)
      = (parseNumCore cs).map fun p => (Json.num (-(p.1 : Int)), p.2) := by
  simp only [parseJsonAux]
  simp

theorem parseJsonAux_lbrack (f : Nat) (cs : List Char) :
    parseJsonAux (f + 1) ('[' :: cs) = parseArrBody f cs := by
  simp only [parseJsonAux]
  simp

theorem parseJsonAux_lbrace (f : Nat) (cs : List Char) :
    parseJsonAux (f + 1) ('{' :: cs) = parseObjBody f cs := by
  simp only [parseJsonAux]
  simp

theorem parseJsonAux_digit (f : Nat) {c : Char} (cs : List Char)
    (hdig : c.isDigit = true) :
    parseJsonAux (f + 1) (c :: cs)
      = (parseNumCore (c :: cs)).map fun p => (Json.num (p.1 : Int), p.2) := by
  obtain ⟨h1, h2, h3, h4, h5, h6, h7, _, _⟩ := digit_ne_meta hdig
  simp only [parseJsonAux]
  rw [if_neg h1, if_neg h2, if_neg h3, if_neg h4, if_neg h5, if_neg h6, if_neg h7]

theorem parseArrBody_cons (f : Nat) (d : Char) (ds : List Char) :
    parseArrBody f (d :: ds)
      = if d = ']' then some (Json.arr [], ds)
        else (parseArrItems f (d :: ds)).map fun p => (Json.arr p.1, p.2) := by
  simp only [parseArrBody]

theorem parseObjBody_cons (f : Nat) (d : Char) (ds : List Char) :
    parseObjBody f (d :: ds)
      = if d = '}' then some (Json.obj [], ds)
        else (parseObjItems f (d :: ds)).map fun p => (Json.obj p.1, p.2) := by
  simp only [parseObjBody]

theorem parseArrItems_succ (f : Nat) (s : List Char) :
    parseArrItems (f + 1) s = (parseJsonAux f s).bind fun vr =>
      match vr.2 with
      | [] => none
      | c :: r' =>
        if c = ',' then (parseArrItems f r').map fun p => (vr.1 :: p.1, p.2)
        else if c = ']' then some ([vr.1], r')
        else none := by
  simp only [parseArrItems]

theorem parseObjItems_succ_quote (f : Nat) (cs : List Char) :
    parseObjItems (f + 1) ('"' :: cs) = (parseStrBody cs).bind fun kr =>
      match kr.2 with
      | [] => none
      | c2 :: r2 =>
        if c2 = ':' then
          (parseJsonAux f r2).bind fun vr =>
            match vr.2 with
            | [] => none
            | c3 :: r4 =>
              if c3 = ',' then
                (parseObjItems f r4).map fun p => ((kr.1, vr.1) :: p.1, p.2)
              else if c3 = '}' then some ([(kr.1, vr.1)], r4)
              else none
        else none := by
  simp only [parseObjItems]
  simp

/-- Fuel-indexed round trip of the JSON codec: parsing the
serialisation of a value (with any non-digit-headed remainder) succeeds
and returns exactly that value, whenever the fuel exceeds the
serialised length. -/
theorem parse_serJson_aux (f : Nat) :
    (∀ v rest, (serJson v).length + 1 ≤ f → NoDigitHead rest →
      parseJsonAux f (serJson v ++ rest) = some (v, rest)) ∧
    (∀ x xs rest,
      (serJson x).length + (serArrTail xs).length + 1 ≤ f → NoDigitHead rest →
      parseArrItems f (serJson x ++ (serArrTail xs ++ rest)) = some (x :: xs, rest)) ∧
    (∀ k v kvs rest,
      (serStr k).length + 1 + (serJson v).length + (serObjTail kvs).length + 1 ≤ f →
      NoDigitHead rest →
      parseObjItems f (serStr k ++ ':' :: (serJson v ++ (serObjTail kvs ++ rest)))
        = some ((k, v) :: kvs, rest)) := by
  induction f with
  | zero => exact ⟨fun v rest h => by omega, fun x xs rest h => by omega,
      fun k v kvs rest h => by omega⟩
  | succ f ih =>
    refine ⟨?_, ?_, ?_⟩
    · intro v rest hf hrest
      cases v with
      | null =>
        show parseJsonAux (f + 1) (litNull ++ rest) = _
        simp only [litNull, List.cons_append, List.nil_append]
        rw [parseJsonAux_n]
        rw [show ('u' :: 'l' :: 'l' :: rest : List Char) = ['u', 'l', 'l'] ++ rest
          from rfl, dropLit_append]
        rfl
      | bool b =>
        cases b
        · show parseJsonAux (f + 1) (litFalse ++ rest) = _
          simp only [litFalse, List.cons_append, List.nil_append]
          rw [parseJsonAux_f]
          rw [show ('a' :: 'l' :: 's' :: 'e' :: rest : List Char)
            = ['a', 'l', 's', 'e'] ++ rest from rfl, dropLit_append]
          rfl
        · show parseJsonAux (f + 1) (litTrue ++ rest) = _
          simp only [litTrue, List.cons_append, List.nil_append]
          rw [parseJsonAux_t]
          rw [show ('r' :: 'u' :: 'e' :: rest : List Char)
            = ['r', 'u', 'e'] ++ rest from rfl, dropLit_append]
          rfl
      | num n =>
        by_cases hn : n < 0
        · rw [show serJson (.num n) = '-' :: natToChars n.natAbs by
            rw [serJson]; simp [hn]]
          rw [List.cons_append, parseJsonAux_minus,
            parseNumCore_natToChars n.natAbs hrest, Option.map_some']
          have h : -((n.natAbs : Int)) = n := by omega
          rw [h]
        · rw [show serJson (.num n) = natToChars n.natAbs by
            rw [serJson]; simp [hn]]
          obtain ⟨c, t, heq, hdig⟩ := natToChars_head n.natAbs
          rw [heq, List.cons_append, parseJsonAux_digit f _ hdig,
            ← List.cons_append, ← heq,
            parseNumCore_natToChars n.natAbs hrest, Option.map_some']
          have h : ((n.natAbs : Int)) = n := by omega
          rw [h]
      | str s =>
        show parseJsonAux (f + 1) (('"' :: (escapeStr s ++ ['"'])) ++ rest) = _
        rw [List.cons_append, parseJsonAux_quote, List.append_assoc,
          List.singleton_append, parseStrBody_escape s rest, Option.map_some']
      | arr xs =>
        cases xs with
        | nil =>
          show parseJsonAux (f + 1) (['[', ']'] ++ rest) = _
          simp only [List.cons_append, List.nil_append]
          rw [parseJsonAux_lbrack, parseArrBody_cons, if_pos rfl]
        | cons x xs =>
          show parseJsonAux (f + 1) (('[' :: (serJson x ++ serArrTail xs)) ++ rest) = _
          rw [List.cons_append, parseJsonAux_lbrack, List.append_assoc]
          obtain ⟨c, t, heq, hopts⟩ := serJson_head x
          have hcne : c ≠ ']' := by
            rcases hopts with rfl | rfl | rfl | rfl | rfl | rfl | rfl | hdig
            · decide
            · decide
            · decide
            · decide
            · decide
            · decide
            · decide
            · exact (digit_ne_meta hdig).2.2.2.2.2.2.2.1
          rw [heq, List.cons_append, parseArrBody_cons, if_neg hcne,
            ← List.cons_append, ← heq]
          have harr := ih.2.1 x xs rest (by
            have := serJson_length_pos x
            simp only [serJson, List.length_cons, List.length_append] at hf
            omega) hrest
          rw [harr, Option.map_some']
      | obj kvs =>
        rcases kvs with _ | ⟨⟨k, v⟩, kvs⟩
        · show parseJsonAux (f + 1) (['{', '}'] ++ rest) = _
          simp only [List.cons_append, List.nil_append]
          rw [parseJsonAux_lbrace, parseObjBody_cons, if_pos rfl]
        · show parseJsonAux (f + 1)
            (('{' :: (serStr k ++ ':' :: serJson v ++ serObjTail kvs)) ++ rest) = _
          rw [List.cons_append, parseJsonAux_lbrace]
          have hobj := ih.2.2 k v kvs rest (by
            simp only [serJson, serStr, List.length_cons, List.length_append] at hf ⊢
            omega) hrest
          rw [show serStr k = '"' :: (escapeStr k ++ ['"']) from rfl] at hobj ⊢
          simp only [List.cons_append, List.append_assoc] at hobj ⊢
          rw [parseObjBody_cons, if_neg (by decide : ¬('"' : Char) = '}'), hobj,
            Option.map_some']
    · intro x xs rest hf hrest
      rw [parseArrItems_succ]
      have hx := ih.1 x (serArrTail xs ++ rest) (by
        have := serArrTail_length_pos xs
        omega) (noDigitHead_serArrTail xs rest)
      rw [hx, Option.some_bind]
      cases xs with
      | nil =>
        show (match ((']' : Char) :: rest) with
          | [] => none
          | c :: r' =>
            if c = ',' then (parseArrItems f r').map fun (p : List Json × List Char) => (x :: p.1, p.2)
            else if c = ']' then some ([x], r')
            else none) = _
        simp
      | cons y ys =>
        show (match ((',' : Char) :: (serJson y ++ serArrTail ys) ++ rest) with
          | [] => none
          | c :: r' =>
            if c = ',' then (parseArrItems f r').map fun (p : List Json × List Char) => (x :: p.1, p.2)
            else if c = ']' then some ([x], r')
            else none) = _
        simp only [List.cons_append, reduceIte]
        have hy := ih.2.1 y ys rest (by
          have hx1 := serJson_length_pos x
          simp only [serArrTail, List.length_cons, List.length_append] at hf
          omega) hrest
        rw [List.append_assoc, hy, Option.map_some']
    · intro k v kvs rest hf hrest
      rw [show serStr k = '"' :: (escapeStr k ++ ['"']) from rfl, List.cons_append,
        parseObjItems_succ_quote, List.append_assoc, List.singleton_append,
        parseStrBody_escape k, Option.some_bind]
      show (match ((':' : Char) :: (serJson v ++ (serObjTail kvs ++ rest))) with
        | [] => none
        | c2 :: r2 =>
          if c2 = ':' then
            (parseJsonAux f r2).bind fun vr =>
              match vr.2 with
              | [] => none
              | c3 :: r4 =>
                if c3 = ',' then
                  (parseObjItems f r4).map fun (p : List (List Char × Json) × List Char) => ((k, vr.1) :: p.1, p.2)
                else if c3 = '}' then some ([(k, vr.1)], r4)
                else none
          else none) = _
      simp only [reduceIte]
      have hv := ih.1 v (serObjTail kvs ++ rest) (by
        have := serObjTail_length_pos kvs
        omega) (noDigitHead_serObjTail kvs rest)
      rw [hv, Option.some_bind]
      rcases kvs with _ | ⟨⟨k2, v2⟩, kvs⟩
      · show (match (('}' : Char) :: rest) with
          | [] => none
          | c3 :: r4 =>
            if c3 = ',' then
              (parseObjItems f r4).map fun (p : List (List Char × Json) × List Char) => ((k, v) :: p.1, p.2)
            else if c3 = '}' then some ([(k, v)], r4)
            else none) = _
        simp
      · show (match ((',' : Char) :: (serStr k2 ++ ':' :: serJson v2 ++ serObjTail kvs) ++ rest) with
          | [] => none
          | c3 :: r4 =>
            if c3 = ',' then
              (parseObjItems f r4).map fun (p : List (List Char × Json) × List Char) => ((k, v) :: p.1, p.2)
            else if c3 = '}' then some ([(k, v)], r4)
            else none) = _
        simp only [List.cons_append, reduceIte]
        have h2 := ih.2.2 k2 v2 kvs rest (by
          simp only [serObjTail, serStr, List.length_cons, List.length_append] at hf ⊢
          omega) hrest
        rw [show serStr k2 = '"' :: (escapeStr k2 ++ ['"']) from rfl] at h2 ⊢
        simp only [List.cons_append, List.append_assoc] at h2 ⊢
        rw [h2, Option.map_some']

/-- Full-text round trip of the JSON codec: `json.loads(json.dumps(v))`
recovers `v`. -/
theorem loadsJson_serJson (v : Json) : loadsJson (serJson v) = some v := by
  have h := (parse_serJson_aux ((serJson v).length + 1)).1 v []
    (le_refl _) trivial
  rw [List.append_nil] at h
  rw [loadsJson, h]

/-! ## UTF-8

Model of Python `str.encode()` / `bytes.decode()` (the UTF-8 codec)
used by `_send_message_async` / `_receive_message_async` in
`connection.py` and by the discovery datagrams. -/

/-- UTF-8 encoding of a single character. -/
def utf8EncodeChar (c : Char) : List Nat :=
  if c.toNat < 128 then [c.toNat]
  else if c.toNat < 2048 then [192 + c.toNat / 64, 128 + c.toNat % 64]
  else if c.toNat < 65536 then
    [224 + c.toNat / 4096, 128 + c.toNat / 64 % 64, 128 + c.toNat % 64]
  else
    [240 + c.toNat / 262144, 128 + c.toNat / 4096 % 64,
      128 + c.toNat / 64 % 64, 128 + c.toNat % 64]

/-- UTF-8 encoding of a string: the model of `text.encode()`. -/
def utf8Encode : List Char → List Nat
  | [] => []
  | c :: cs => utf8EncodeChar c ++ utf8Encode cs

/-- Build a character from a code point, `none` when the code point is
not a unicode scalar value. -/
def mkCharOpt (n : Nat) : Option Char :=
  if h : n.isValidChar then some (Char.ofNatAux n h) else none

/-- Decode one UTF-8 encoded character from the head of a byte
stream. -/
def utf8DecodeChar : List Nat → Option (Char × List Nat)
  | [] => none
  | b :: bs =>
    if b < 128 then (mkCharOpt b).map fun c => (c, bs)
    else if b < 192 then none
    else if b < 224 then
      match bs with
      | b2 :: r =>
        if 128 ≤ b2 ∧ b2 < 192 then
          (mkCharOpt ((b - 192) * 64 + (b2 - 128))).map fun c => (c, r)
        else none
      | [] => none
    else if b < 240 then
      match bs with
      | b2 :: b3 :: r =>
        if (128 ≤ b2 ∧ b2 < 192) ∧ (128 ≤ b3 ∧ b3 < 192) then
          (mkCharOpt ((b - 224) * 4096 + (b2 - 128) * 64 + (b3 - 128))).map
            fun c => (c, r)
        else none
      | _ => none
    else if b < 248 then
      match bs with
      | b2 :: b3 :: b4 :: r =>
        if (128 ≤ b2 ∧ b2 < 192) ∧ (128 ≤ b3 ∧ b3 < 192) ∧ (128 ≤ b4 ∧ b4 < 192) then
          (mkCharOpt ((b - 240) * 262144 + (b2 - 128) * 4096
            + (b3 - 128) * 64 + (b4 - 128))).map fun c => (c, r)
        else none
      | _ => none
    else none

/-- Fuelled UTF-8 decoding loop (each step consumes at least one
byte, so fuel equal to the input length suffices). -/
def utf8DecodeAux : Nat → List Nat → Option (List Char)
  | _, [] => some []
  | 0, _ :: _ => none
  | f + 1, b :: bs =>
    (utf8DecodeChar (b :: bs)).bind fun cr =>
      (utf8DecodeAux f cr.2).map fun s => cr.1 :: s

/-- UTF-8 decoding of a byte string: the model of `data.decode()`. -/
def utf8Decode (l : List Nat) : Option (List Char) :=
  utf8DecodeAux l.length l

theorem char_eq_of_toNat {a b : Char} (h : a.toNat = b.toNat) : a = b :=
  Char.ext (UInt32.ext h)

theorem isValidChar_toNat (c : Char) : Nat.isValidChar c.toNat := by
  have h := c.valid
  unfold UInt32.isValidChar at h
  exact h

theorem mkCharOpt_toNat (c : Char) : mkCharOpt c.toNat = some c := by
  rw [mkCharOpt, dif_pos (isValidChar_toNat c)]
  exact congrArg some (char_eq_of_toNat
    (by simp [Char.ofNatAux, Char.toNat, UInt32.toNat, UInt32.ofNatCore]))

theorem char_toNat_lt (c : Char) : c.toNat < 1114112 := by
  rcases isValidChar_toNat c with h | h
  · omega
  · omega

theorem utf8DecodeChar_encode (c : Char) (rest : List Nat) :
    utf8DecodeChar (utf8EncodeChar c ++ rest) = some (c, rest) := by
  have hlt := char_toNat_lt c
  rw [utf8EncodeChar]
  by_cases h1 : c.toNat < 128
  · rw [if_pos h1, List.singleton_append]
    simp only [utf8DecodeChar.eq_def]
    rw [if_pos h1, mkCharOpt_toNat, Option.map_some']
  · rw [if_neg h1]
    by_cases h2 : c.toNat < 2048
    · rw [if_pos h2]
      simp only [List.cons_append, List.nil_append]
      simp only [utf8DecodeChar.eq_def]
      rw [if_neg (by omega), if_neg (by omega), if_pos (by omega),
        if_pos (by constructor <;> omega)]
      rw [show (192 + c.toNat / 64 - 192) * 64 + (128 + c.toNat % 64 - 128)
        = c.toNat by omega]
      rw [mkCharOpt_toNat, Option.map_some']
    · rw [if_neg h2]
      by_cases h3 : c.toNat < 65536
      · rw [if_pos h3]
        simp only [List.cons_append, List.nil_append]
        simp only [utf8DecodeChar.eq_def]
        rw [if_neg (by omega), if_neg (by omega), if_neg (by omega),
          if_pos (by omega),
          if_pos (by refine ⟨⟨?_, ?_⟩, ?_, ?_⟩ <;> omega)]
        rw [show (224 + c.toNat / 4096 - 224) * 4096
          + (128 + c.toNat / 64 % 64 - 128) * 64 + (128 + c.toNat % 64 - 128)
          = c.toNat by omega]
        rw [mkCharOpt_toNat, Option.map_some']
      · rw [if_neg h3]
        simp only [List.cons_append, List.nil_append]
        simp only [utf8DecodeChar.eq_def]
        rw [if_neg (by omega), if_neg (by omega), if_neg (by omega),
          if_neg (by omega), if_pos (by omega),
          if_pos (by refine ⟨⟨?_, ?_⟩, ⟨?_, ?_⟩, ?_, ?_⟩ <;> omega)]
        rw [show (240 + c.toNat / 262144 - 240) * 262144
          + (128 + c.toNat / 4096 % 64 - 128) * 4096
          + (128 + c.toNat / 64 % 64 - 128) * 64 + (128 + c.toNat % 64 - 128)
          = c.toNat by omega]
        rw [mkCharOpt_toNat, Option.map_some']

theorem utf8EncodeChar_length_pos (c : Char) :
    1 ≤ (utf8EncodeChar c).length := by
  rw [utf8EncodeChar]
  split
  · simp
  · split
    · simp
    · split <;> simp

theorem utf8DecodeAux_encode (s : List Char) :
    ∀ f, (utf8Encode s).length ≤ f → utf8DecodeAux f (utf8Encode s) = some s := by
  induction s with
  | nil => intro f _; cases f <;> rfl
  | cons c cs ih =>
    intro f hf
    have hpos := utf8EncodeChar_length_pos c
    rw [utf8Encode] at hf ⊢
    rw [List.length_append] at hf
    obtain ⟨b, t, hbt⟩ : ∃ b t, utf8EncodeChar c = b :: t := by
      cases hc : utf8EncodeChar c with
      | nil => rw [hc] at hpos; simp at hpos
      | cons b t => exact ⟨b, t, rfl⟩
    cases f with
    | zero => omega
    | succ f =>
      rw [hbt, List.cons_append, utf8DecodeAux, ← List.cons_append, ← hbt,
        utf8DecodeChar_encode, Option.some_bind]
      rw [ih f (by omega), Option.map_some']

/-- Round trip of the UTF-8 codec model. -/
theorem utf8Decode_encode (s : List Char) :
    utf8Decode (utf8Encode s) = some s :=
  utf8DecodeAux_encode s _ (le_refl _)

/-! ## Length-prefixed framing

Model of the wire framing in `connection.py`:
`_send_message_async` writes `len(data).to_bytes(4, 'big') + data`
(lines 128–131); `_receive_message_async` reads exactly 4 bytes, decodes
a big-endian length, then reads exactly that many payload bytes
(lines 137–140). -/

/-- Big-endian byte rendering of `n` into exactly `k` bytes: the model
of `n.to_bytes(k, 'big')` (which raises `OverflowError` when
`n ≥ 256^k`; callers guard for that). -/
def toBytesBE : Nat → Nat → List Nat
  | 0, _ => []
  | k + 1, n => toBytesBE k (n / 256) ++ [n % 256]

/-- Big-endian byte decoding: the model of `int.from_bytes(b, 'big')`. -/
def fromBytesBE (l : List Nat) : Nat :=
  l.foldl (fun acc b => acc * 256 + b) 0

/-- The model of `reader.readexactly(n)`: take exactly `n` bytes or
fail (`IncompleteReadError`). -/
def readExactly (n : Nat) (s : List Nat) : Option (List Nat × List Nat) :=
  if n ≤ s.length then some (s.take n, s.drop n) else none

/-- Read one length-prefixed frame from the head of the stream,
returning the payload and the unconsumed stream. -/
def readFrame (s : List Nat) : Option (List Nat × List Nat) :=
  (readExactly 4 s).bind fun p => readExactly (fromBytesBE p.1) p.2

/-- The model of `ConnectionManager._send_message_async`
(`connection.py` lines 125–133): serialise the message, UTF-8 encode
it, and prepend the 4-byte big-endian length.  `none` models the
`OverflowError` from `to_bytes` when the payload does not fit 4 bytes
(the method catches and logs every exception, sending nothing). -/
def sendMessageBytes (m : Json) : Option (List Nat) :=
  if (utf8Encode (serJson m)).length < 4294967296 then
    some (toBytesBE 4 (utf8Encode (serJson m)).length ++ utf8Encode (serJson m))
  else none

/-- The model of `ConnectionManager._receive_message_async`
(`connection.py` lines 135–143): read the 4-byte length, read the
payload, decode UTF-8 and parse JSON; any failure yields `none`.
Returns the decoded message and the unconsumed stream. -/
def receiveMessageBytes (stream : List Nat) : Option (Json × List Nat) :=
  (readFrame stream).bind fun p =>
    ((utf8Decode p.1).bind loadsJson).map fun v => (v, p.2)

theorem toBytesBE_length (k n : Nat) : (toBytesBE k n).length = k := by
  induction k generalizing n with
  | zero => rfl
  | succ k ih => simp [toBytesBE, ih]

theorem foldl_toBytesBE (k : Nat) :
    ∀ n acc, n < 256 ^ k →
      (toBytesBE k n).foldl (fun acc b => acc * 256 + b) acc
        = acc * 256 ^ k + n := by
  induction k with
  | zero =>
    intro n acc hn
    simp only [pow_zero, toBytesBE, List.foldl_nil] at hn ⊢
    omega
  | succ k ih =>
    intro n acc hn
    rw [toBytesBE, List.foldl_append,
      ih (n / 256) acc (by
        have hp : 256 ^ (k + 1) = 256 * 256 ^ k := by ring
        rw [hp] at hn
        exact Nat.div_lt_of_lt_mul hn)]
    simp only [List.foldl_cons, List.foldl_nil]
    have hpow : (256 : Nat) ^ (k + 1) = 256 ^ k * 256 := by ring
    rw [hpow]
    have hmod := Nat.div_add_mod n 256
    ring_nf
    omega

theorem fromBytesBE_toBytesBE {k n : Nat} (hn : n < 256 ^ k) :
    fromBytesBE (toBytesBE k n) = n := by
  rw [fromBytesBE, foldl_toBytesBE k n 0 hn]
  omega

theorem readFrame_frame (d rest : List Nat) (hd : d.length < 4294967296) :
    readFrame (toBytesBE 4 d.length ++ (d ++ rest)) = some (d, rest) := by
  rw [readFrame, readExactly, if_pos (by
    rw [List.length_append, toBytesBE_length]
    omega)]
  rw [List.take_left' (toBytesBE_length 4 d.length),
    List.drop_left' (toBytesBE_length 4 d.length), Option.some_bind]
  rw [fromBytesBE_toBytesBE (by
    have h : (256 : Nat) ^ 4 = 4294967296 := by norm_num
    omega)]
  rw [readExactly, if_pos (by rw [List.length_append]; omega)]
  rw [List.take_left' rfl, List.drop_left' rfl]

/-- C7: for every JSON-encodable object `O`, encoding `O` with the
length-prefix framer (4-byte big-endian length followed by that many
bytes of UTF-8 JSON, as written by `_send_message_async`) and decoding
the resulting frame with the frame reader
(`_receive_message_async`) yields a value equal to `O`.  The hypothesis
states that the framer produced a frame at all (`to_bytes` overflows
on payloads of 2^32 bytes or more). -/
theorem framing_round_trip (m : Json) (frame rest : List Nat)
    (h : sendMessageBytes m = some frame) :
    receiveMessageBytes (frame ++ rest) = some (m, rest) := by
  rw [sendMessageBytes] at h
  by_cases hc : (utf8Encode (serJson m)).length < 4294967296
  · rw [if_pos hc] at h
    obtain rfl : toBytesBE 4 (utf8Encode (serJson m)).length
        ++ utf8Encode (serJson m) = frame := by
      exact Option.some_injective _ h
    rw [receiveMessageBytes, List.append_assoc, readFrame_frame _ _ hc,
      Option.some_bind, utf8Decode_encode, Option.some_bind,
      loadsJson_serJson, Option.map_some']
  · rw [if_neg hc] at h
    exact absurd h (by simp)

/-- A sample message used to instantiate `framing_round_trip`. -/
def sampleMessage : Json :=
  .obj [(['a'], .num (-7)), (['b'], .arr [.null, .bool true, .str ['x', '"']])]

/-- Witness for C7: the round trip evaluated at a concrete message and
a concrete trailing stream. -/
theorem framing_round_trip_witness :
    receiveMessageBytes (((sendMessageBytes sampleMessage).getD []) ++ [9])
      = some (sampleMessage, [9]) := by
  have hlen : (utf8Encode (serJson sampleMessage)).length < 4294967296 := by
    simp [sampleMessage, serJson, serStr, serArrTail, serObjTail, escapeStr,
      escapeChar, natToChars, digitChar, utf8Encode, utf8EncodeChar]
  exact framing_round_trip sampleMessage _ [9] (by rw [sendMessageBytes, if_pos hlen]; rfl)

/-! ## Insertion-ordered dictionaries

Python dicts preserve insertion order; they are modelled as association
lists.  `ainsert` models `d[k] = v` (replace in place when the key
exists, append otherwise), `alookup` models `d.get(k)` / `d[k]`, and
`aupdate` models an in-place mutation of the value object stored under
a key (Python objects are mutated through references held in the
dict). -/

/-- Model of `d.get(k)` / `d[k]` on an insertion-ordered dict. -/
def alookup {κ α : Type} [DecidableEq κ] : List (κ × α) → κ → Option α
  | [], _ => none
  | (k', v) :: rest, k => if k' = k then some v else alookup rest k

/-- Model of `d[k] = v` on an insertion-ordered dict. -/
def ainsert {κ α : Type} [DecidableEq κ] : List (κ × α) → κ → α → List (κ × α)
  | [], k, v => [(k, v)]
  | (k', v') :: rest, k, v =>
    if k' = k then (k, v) :: rest else (k', v') :: ainsert rest k v

/-- Model of mutating the object stored under key `k` in place. -/
def aupdate {κ α : Type} [DecidableEq κ] : List (κ × α) → κ → (α → α) → List (κ × α)
  | [], _, _ => []
  | (k', v') :: rest, k, f =>
    if k' = k then (k', f v') :: rest else (k', v') :: aupdate rest k f

theorem alookup_ainsert_self {κ α : Type} [DecidableEq κ]
    (l : List (κ × α)) (k : κ) (v : α) : alookup (ainsert l k v) k = some v := by
  induction l with
  | nil => simp [ainsert, alookup]
  | cons p rest ih =>
    obtain ⟨k', v'⟩ := p
    by_cases h : k' = k
    · simp [ainsert, alookup, h]
    · simp [ainsert, alookup, h, ih]

theorem alookup_ainsert_ne {κ α : Type} [DecidableEq κ]
    (l : List (κ × α)) (k k' : κ) (v : α) (h : k' ≠ k) :
    alookup (ainsert l k v) k' = alookup l k' := by
  have h' : ¬ k = k' := fun he => h he.symm
  induction l with
  | nil => simp [ainsert, alookup, h']
  | cons p rest ih =>
    obtain ⟨k0, v0⟩ := p
    by_cases h0 : k0 = k
    · subst h0
      simp [ainsert, alookup, h']
    · by_cases h1 : k0 = k'
      · simp [ainsert, alookup, h0, h1, h]
      · simp [ainsert, alookup, h0, h1, ih]

theorem alookup_aupdate_self {κ α : Type} [DecidableEq κ]
    (l : List (κ × α)) (k : κ) (f : α → α) :
    alookup (aupdate l k f) k = (alookup l k).map f := by
  induction l with
  | nil => simp [aupdate, alookup]
  | cons p rest ih =>
    obtain ⟨k', v'⟩ := p
    by_cases h : k' = k
    · simp [aupdate, alookup, h]
    · simp [aupdate, alookup, h, ih]

theorem alookup_aupdate_ne {κ α : Type} [DecidableEq κ]
    (l : List (κ × α)) (k k' : κ) (f : α → α) (h : k' ≠ k) :
    alookup (aupdate l k f) k' = alookup l k' := by
  have h' : ¬ k = k' := fun he => h he.symm
  induction l with
  | nil => simp [aupdate, alookup]
  | cons p rest ih =>
    obtain ⟨k0, v0⟩ := p
    by_cases h0 : k0 = k
    · subst h0
      simp [aupdate, alookup, h']
    · by_cases h1 : k0 = k'
      · simp [aupdate, alookup, h0, h1, h]
      · simp [aupdate, alookup, h0, h1, ih]

theorem ainsert_of_alookup_none {κ α : Type} [DecidableEq κ]
    (l : List (κ × α)) (k : κ) (v : α) (h : alookup l k = none) :
    ainsert l k v = l ++ [(k, v)] := by
  induction l with
  | nil => rfl
  | cons p rest ih =>
    obtain ⟨k', v'⟩ := p
    rw [alookup] at h
    by_cases h0 : k' = k
    · simp [h0] at h
    · rw [if_neg h0] at h
      simp [ainsert, h0, ih h]

theorem mem_aupdate {κ α : Type} [DecidableEq κ]
    (l : List (κ × α)) (k : κ) (f : α → α) :
    ∀ p ∈ aupdate l k f, ∃ v, (p.1, v) ∈ l := by
  induction l with
  | nil => simp [aupdate]
  | cons q rest ih =>
    obtain ⟨k', v'⟩ := q
    intro p hp
    rw [aupdate] at hp
    by_cases h0 : k' = k
    · rw [if_pos h0] at hp
      rcases List.mem_cons.mp hp with h | h
      · exact ⟨v', by rw [h]; exact List.mem_cons_self _ _⟩
      · exact ⟨p.2, List.mem_cons_of_mem _ (by simpa using h)⟩
    · rw [if_neg h0] at hp
      rcases List.mem_cons.mp hp with h | h
      · exact ⟨v', by rw [h]; exact List.mem_cons_self _ _⟩
      · obtain ⟨v, hv⟩ := ih p h
        exact ⟨v, List.mem_cons_of_mem _ hv⟩

theorem aupdate_length {κ α : Type} [DecidableEq κ]
    (l : List (κ × α)) (k : κ) (f : α → α) :
    (aupdate l k f).length = l.length := by
  induction l with
  | nil => rfl
  | cons q rest ih =>
    obtain ⟨k', v'⟩ := q
    rw [aupdate]
    by_cases h0 : k' = k
    · simp [h0]
    · simp [h0, ih]

theorem alookup_isSome_of_mem {κ α : Type} [DecidableEq κ]
    (l : List (κ × α)) (k : κ) (v : α) (h : (k, v) ∈ l) :
    (alookup l k).isSome := by
  induction l with
  | nil => simp at h
  | cons q rest ih =>
    obtain ⟨k', v'⟩ := q
    rw [alookup]
    by_cases h0 : k' = k
    · simp [h0]
    · rw [if_neg h0]
      rcases List.mem_cons.mp h with he | he
      · exact absurd (congrArg Prod.fst he).symm h0
      · exact ih he

/-! ## Resource manager (scheduler)

Model of `resource_manager.py`.  Strings that carry task ids are kept
as `List Char` so that the id arithmetic (`f"task_{len(self.tasks)}"`)
is the same decimal rendering as in the JSON model; peer hostnames are
plain `String`s.  Percentages are rationals. -/

/-- The two fields of the cached `hardware_info` dict that
`_find_available_node` reads, via `.get('cpu_percent', 0)` and
`.get('memory_percent', 0)` (`resource_manager.py` lines 100–102); a
missing key yields the default 0. -/
structure HwView where
  cpu_percent : Option ℚ
  memory_percent : Option ℚ
  deriving DecidableEq

/-- Model of the access `hw_info.get('cpu_percent', 0)`. -/
def HwView.cpuD (h : HwView) : ℚ := h.cpu_percent.getD 0

/-- Model of the access `hw_info.get('memory_percent', 0)`. -/
def HwView.memD (h : HwView) : ℚ := h.memory_percent.getD 0

/-- The projection of a `NodeConnection` record onto the fields the
scheduler reads: the liveness flag and the cached hardware info. -/
structure PeerView where
  is_active : Bool
  hardware_info : HwView
  deriving DecidableEq

/-- Task lifecycle states (`resource_manager.py` line 24). -/
inductive TaskStatus where
  | pending
  | running
  | completed
  | failed
  deriving DecidableEq, Repr

/-- The `Task` dataclass (`resource_manager.py` lines 15–26).  The
`function` callable is represented by its `__name__`, which is the only
part of it the scheduler reads (line 123). -/
structure RMTask where
  id : List Char
  functionName : List Char
  args : List Json
  kwargs : List (List Char × Json)
  required_cpu : ℚ
  required_memory : ℚ
  status : TaskStatus
  result : Option Json
  assigned_node : Option String

/-- The scheduler state: the task table (`self.tasks`) and the view of
`connection_manager.get_connected_nodes()` it consults. -/
structure RMState where
  tasks : List (List Char × RMTask)
  conns : List (String × PeerView)

/-- A type with no values: there is no such attribute to be had. -/
inductive MissingAttr : Type

/-- The class `ConnectionManager` (connection.py lines 26–159) defines the
coroutines `_send_message_async` and `_receive_message_async` but no
synchronous method `_send_message`; the attribute lookup
`self.connection_manager._send_message` in `resource_manager.py`
lines 119 and 158 therefore raises `AttributeError`. -/
def connectionManagerSendMessage : Except PyErr MissingAttr :=
  .error .attributeError

/-- The `NodeConnection` dataclass (connection.py lines 15–24) has
fields `hostname`, `ip`, `port`, `reader`, `writer`, `hardware_info`,
`is_active` and no field `socket`; the access `conn.socket` in
`executor.py` lines 52, 103, 115, 138 and `resource_manager.py`
lines 119, 158, 163 therefore raises `AttributeError`. -/
def nodeConnectionSocket : Except PyErr MissingAttr :=
  .error .attributeError

/-- Model of `ResourceManager._find_available_node`
(`resource_manager.py` lines 93–107): first-fit scan of the peer table
in insertion order, skipping peers whose `is_active` flag is cleared,
returning the first peer whose cached usage plus the requirement stays
within 100 on both axes. -/
def findAvailableNode : List (String × PeerView) → ℚ → ℚ → Option String
  | [], _, _ => none
  | (hostname, conn) :: rest, rc, rm =>
    if !conn.is_active then findAvailableNode rest rc rm
    else if conn.hardware_info.cpuD + rc ≤ 100 ∧ conn.hardware_info.memD + rm ≤ 100
    then some hostname
    else findAvailableNode rest rc rm

/-- The id assigned by `submit_task`: the f-string
`f"task_{len(self.tasks)}"` (`resource_manager.py` line 59). -/
def taskIdFor (n : Nat) : List Char :=
  't' :: 'a' :: 's' :: 'k' :: '_' :: natToChars n

/-- The `Task(...)` record constructed by `submit_task`
(`resource_manager.py` lines 60–67): status defaults to pending, result
and assigned node to `None`. -/
def mkTask (tid fn : List Char) (args : List Json)
    (kwargs : List (List Char × Json)) (rc rm : ℚ) : RMTask :=
  { id := tid, functionName := fn, args := args, kwargs := kwargs,
    required_cpu := rc, required_memory := rm,
    status := .pending, result := none, assigned_node := none }

/-- Model of `ResourceManager._assign_task_to_node`
(`resource_manager.py` lines 109–143).  Returns the new state, the
`task` frames actually written to the peer link, and whether the
per-task monitor thread was started.  The body looks up
`self.connection_manager._send_message` inside the `try`, which raises
`AttributeError` (see `connectionManagerSendMessage`), so the `except`
branch sets the task status to failed; nothing is sent and no monitor
is spawned.  A missing task id would raise `KeyError` before the `try`
(state unchanged); a missing connection returns early. -/
def assignTaskToNode (s : RMState) (tid : List Char) (host : String) :
    RMState × List Json × Bool :=
  match alookup s.tasks tid with
  | none => (s, [], false)
  | some _ =>
    match alookup s.conns host with
    | none => (s, [], false)
    | some _ =>
      match connectionManagerSendMessage with
      | .ok m => nomatch m
      | .error _ =>
        ({ s with tasks := aupdate s.tasks tid fun t => { t with status := .failed } },
          [], false)

/-- Model of `ResourceManager._schedule_task`
(`resource_manager.py` lines 76–91): do nothing unless the task is
pending; otherwise find a node and assign, or leave the task pending
when no node fits. -/
def scheduleTask (s : RMState) (tid : List Char) : RMState :=
  match alookup s.tasks tid with
  | none => s
  | some t =>
    if t.status ≠ .pending then s
    else
      match findAvailableNode s.conns t.required_cpu t.required_memory with
      | some host => (assignTaskToNode s tid host).1
      | none => s

/-- Model of `ResourceManager.submit_task`
(`resource_manager.py` lines 42–74): build the id from the current
table size, install a fresh pending task, then attempt immediate
scheduling; returns the id and the new state. -/
def submitTask (s : RMState) (fn : List Char) (args : List Json)
    (kwargs : List (List Char × Json)) (rc rm : ℚ) : List Char × RMState :=
  let tid := taskIdFor s.tasks.length
  let t := mkTask tid fn args kwargs rc rm
  let s1 : RMState := { s with tasks := ainsert s.tasks tid t }
  (tid, scheduleTask s1 tid)

/-- Model of `ResourceManager._monitor_task`
(`resource_manager.py` lines 145–178).  A missing task id raises
`KeyError` (state unchanged); a task without an assigned node or whose
node is not in the table returns early.  When the task is running the
loop body's `self.connection_manager._send_message` lookup raises
`AttributeError`, caught by the `except` which sets the status to
failed; when the task is not running the `while` guard is false and
nothing happens. -/
def monitorTask (s : RMState) (tid : List Char) : RMState :=
  match alookup s.tasks tid with
  | none => s
  | some t =>
    match t.assigned_node with
    | none => s
    | some host =>
      match alookup s.conns host with
      | none => s
      | some _ =>
        if t.status = .running then
          match connectionManagerSendMessage with
          | .ok m => nomatch m
          | .error _ =>
            { s with tasks := aupdate s.tasks tid fun t' => { t' with status := .failed } }
        else s

/-- C5: peer selection is first-fit over the peer table in insertion
order; the selected peer is live, and its cached `cpu_percent` plus the
required cpu and its cached `memory_percent` plus the required memory
are both at most 100 at the moment of the check; every earlier peer in
the table was either inactive or failed the capacity check. -/
theorem findAvailableNode_first_fit (conns : List (String × PeerView)) (rc rm : ℚ)
    (h : String) (hfind : findAvailableNode conns rc rm = some h) :
    ∃ pre conn post, conns = pre ++ (h, conn) :: post
      ∧ (∀ q ∈ pre, ¬(q.2.is_active = true
          ∧ q.2.hardware_info.cpuD + rc ≤ 100 ∧ q.2.hardware_info.memD + rm ≤ 100))
      ∧ conn.is_active = true
      ∧ conn.hardware_info.cpuD + rc ≤ 100
      ∧ conn.hardware_info.memD + rm ≤ 100 := by
  induction conns with
  | nil => simp [findAvailableNode] at hfind
  | cons p rest ih =>
    obtain ⟨h0, c0⟩ := p
    rw [findAvailableNode] at hfind
    by_cases ha : c0.is_active
    · rw [if_neg (by simp [ha])] at hfind
      by_cases hfit : c0.hardware_info.cpuD + rc ≤ 100 ∧ c0.hardware_info.memD + rm ≤ 100
      · rw [if_pos hfit] at hfind
        obtain rfl : h0 = h := by injection hfind
        exact ⟨[], c0, rest, rfl, by simp, ha, hfit.1, hfit.2⟩
      · rw [if_neg hfit] at hfind
        obtain ⟨pre, conn, post, heq, hpre, hact, h1, h2⟩ := ih hfind
        refine ⟨(h0, c0) :: pre, conn, post, by rw [heq, List.cons_append], ?_, hact, h1, h2⟩
        intro q hq
        rcases List.mem_cons.mp hq with rfl | hq'
        · exact fun hcl => hfit ⟨hcl.2.1, hcl.2.2⟩
        · exact hpre q hq'
    · rw [if_pos (by simp [ha])] at hfind
      obtain ⟨pre, conn, post, heq, hpre, hact, h1, h2⟩ := ih hfind
      refine ⟨(h0, c0) :: pre, conn, post, by rw [heq, List.cons_append], ?_, hact, h1, h2⟩
      intro q hq
      rcases List.mem_cons.mp hq with rfl | hq'
      · exact fun hcl => ha hcl.1
      · exact hpre q hq'

/-- A sample peer table: an inactive peer, a peer that fails the cpu
capacity check, and a peer that fits. -/
def samplePeers : List (String × PeerView) :=
  [("node-a", ⟨false, ⟨some 10, some 10⟩⟩),
   ("node-b", ⟨true, ⟨some 95, some 10⟩⟩),
   ("node-c", ⟨true, ⟨some 10, some 20⟩⟩)]

/-- Witness for C5: first-fit selection evaluated on `samplePeers` with
requirement (10, 5) picks `node-c`, skipping the inactive and the
overloaded peers. -/
theorem findAvailableNode_first_fit_witness :
    ∃ pre conn post, samplePeers = pre ++ (("node-c" : String), conn) :: post
      ∧ (∀ q ∈ pre, ¬(q.2.is_active = true
          ∧ q.2.hardware_info.cpuD + (10 : ℚ) ≤ 100
          ∧ q.2.hardware_info.memD + (5 : ℚ) ≤ 100))
      ∧ conn.is_active = true
      ∧ conn.hardware_info.cpuD + (10 : ℚ) ≤ 100
      ∧ conn.hardware_info.memD + (5 : ℚ) ≤ 100 :=
  findAvailableNode_first_fit samplePeers 10 5 "node-c" (by
    simp [samplePeers, findAvailableNode, HwView.cpuD, HwView.memD]
    norm_num)

/-- C10: `submit_task` creates a fresh record in pending status with no
result and no assigned node, returns the id `task_<n>` where `n` is the
table size at insertion time, and installs the record in the task table
(the immediate scheduling attempt may advance the installed record's
status, which is the only field it can change). -/
theorem submitTask_spec (s : RMState) (fn : List Char) (args : List Json)
    (kwargs : List (List Char × Json)) (rc rm : ℚ) :
    (submitTask s fn args kwargs rc rm).1 = taskIdFor s.tasks.length
    ∧ (mkTask (taskIdFor s.tasks.length) fn args kwargs rc rm).status = .pending
    ∧ (mkTask (taskIdFor s.tasks.length) fn args kwargs rc rm).result = none
    ∧ (mkTask (taskIdFor s.tasks.length) fn args kwargs rc rm).assigned_node = none
    ∧ ∃ st, alookup (submitTask s fn args kwargs rc rm).2.tasks (taskIdFor s.tasks.length)
        = some { mkTask (taskIdFor s.tasks.length) fn args kwargs rc rm with status := st } := by
  refine ⟨rfl, rfl, rfl, rfl, ?_⟩
  rw [submitTask]
  simp only
  set tid := taskIdFor s.tasks.length with htid
  set t0 := mkTask tid fn args kwargs rc rm with ht0
  set s1 : RMState := { s with tasks := ainsert s.tasks tid t0 } with hs1
  have hl1 : alookup s1.tasks tid = some t0 := alookup_ainsert_self s.tasks tid t0
  have hpend : ¬ t0.status ≠ TaskStatus.pending := by simp [ht0, mkTask]
  simp only [scheduleTask, hl1, if_neg hpend]
  cases hf : findAvailableNode s1.conns t0.required_cpu t0.required_memory with
  | none => exact ⟨.pending, by rw [hl1]; rfl⟩
  | some host =>
    simp only [assignTaskToNode, hl1]
    cases hc : alookup s1.conns host with
    | none => exact ⟨.pending, by rw [hl1]; rfl⟩
    | some conn =>
      refine ⟨.failed, ?_⟩
      simp only [connectionManagerSendMessage]
      rw [alookup_aupdate_self, hl1, Option.map_some']

/-- C1 (code bug evaluation): in the assignment step, even when the
task exists and the chosen peer's record is present, no `task` frame is
written to the link, no per-task monitor is spawned, and the task is
moved straight to failed — the method body looks up the nonexistent
`ConnectionManager._send_message` (and `conn.socket`) and the resulting
`AttributeError` lands in the `except` branch. -/
theorem assignTaskToNode_sends_nothing (s : RMState) (tid : List Char)
    (host : String) (task : RMTask) (conn : PeerView)
    (ht : alookup s.tasks tid = some task) (hc : alookup s.conns host = some conn) :
    (assignTaskToNode s tid host).2.1 = []
    ∧ (assignTaskToNode s tid host).2.2 = false
    ∧ alookup (assignTaskToNode s tid host).1.tasks tid
        = some { task with status := .failed } := by
  refine ⟨?_, ?_, ?_⟩ <;>
    simp only [assignTaskToNode, ht, hc, connectionManagerSendMessage]
  rw [alookup_aupdate_self, ht, Option.map_some']

/-- A scheduler state with one pending task and one live peer with
ample headroom: exactly the situation in which the spec says the
assignment must send a frame and move the task to running. -/
def sampleRMState : RMState :=
  { tasks := [(taskIdFor 0, mkTask (taskIdFor 0) ['s', 'q'] [.num 5] [] 10 20)],
    conns := [("node-b", ⟨true, ⟨some 10, some 10⟩⟩)] }

/-- Witness for the C1 evaluation: the failing input made concrete. -/
theorem assignTaskToNode_sends_nothing_witness :
    (assignTaskToNode sampleRMState (taskIdFor 0) "node-b").2.1 = []
    ∧ (assignTaskToNode sampleRMState (taskIdFor 0) "node-b").2.2 = false
    ∧ alookup (assignTaskToNode sampleRMState (taskIdFor 0) "node-b").1.tasks (taskIdFor 0)
        = some { mkTask (taskIdFor 0) ['s', 'q'] [.num 5] [] 10 20 with status := .failed } :=
  assignTaskToNode_sends_nothing sampleRMState (taskIdFor 0) "node-b"
    (mkTask (taskIdFor 0) ['s', 'q'] [.num 5] [] 10 20) ⟨true, ⟨some 10, some 10⟩⟩
    (by simp [sampleRMState, alookup]) (by simp [sampleRMState, alookup])

/-! ### Task status monotonicity (C6) -/

/-- The transitions the spec allows: stay put, pending → running,
pending → failed, running → completed, running → failed. -/
def allowedStep : TaskStatus → TaskStatus → Bool
  | a, b =>
    a == b
    || (a == .pending && (b == .running || b == .failed))
    || (a == .running && (b == .completed || b == .failed))

/-- The status recorded for a task id, `none` when the id is absent. -/
def statusAt (s : RMState) (tid : List Char) : Option TaskStatus :=
  (alookup s.tasks tid).map (·.status)

/-- Allowed evolution on optional statuses: a new task may appear with
any status, an existing task may only take an allowed step, and tasks
are never removed. -/
def allowedOpt : Option TaskStatus → Option TaskStatus → Bool
  | none, _ => true
  | some _, none => false
  | some a, some b => allowedStep a b

/-- Well-formedness of the task table: every key was produced by the
`task_<i>` scheme for some `i` below the table size.  This holds in
every reachable state because ids are handed out as `task_<size>` and
tasks are never removed. -/
def TasksWF (l : List (List Char × RMTask)) : Prop :=
  ∀ p ∈ l, ∃ i, i < l.length ∧ p.1 = taskIdFor i

theorem allowedOpt_refl (a : Option TaskStatus) : allowedOpt a a = true := by
  cases a with
  | none => rfl
  | some x => simp [allowedOpt, allowedStep]

theorem natToChars_inj {a b : Nat} (h : natToChars a = natToChars b) : a = b := by
  have ha := @parseNumCore_natToChars a [] trivial
  have hb := @parseNumCore_natToChars b [] trivial
  rw [List.append_nil] at ha hb
  rw [h, hb] at ha
  exact ((Prod.mk.injEq _ _ _ _).mp (Option.some_injective _ ha)).1.symm

theorem taskIdFor_inj {a b : Nat} (h : taskIdFor a = taskIdFor b) : a = b := by
  simp only [taskIdFor, List.cons.injEq, true_and] at h
  exact natToChars_inj h

theorem alookup_mem {κ α : Type} [DecidableEq κ]
    (l : List (κ × α)) (k : κ) (v : α) (h : alookup l k = some v) : (k, v) ∈ l := by
  induction l with
  | nil => simp [alookup] at h
  | cons p rest ih =>
    obtain ⟨k', v'⟩ := p
    rw [alookup] at h
    by_cases h0 : k' = k
    · rw [if_pos h0] at h
      obtain rfl : v' = v := Option.some_injective _ h
      rw [← h0]
      exact List.mem_cons_self _ _
    · rw [if_neg h0] at h
      exact List.mem_cons_of_mem _ (ih h)

theorem tasksWF_fresh {l : List (List Char × RMTask)} (hwf : TasksWF l) :
    alookup l (taskIdFor l.length) = none := by
  cases hl : alookup l (taskIdFor l.length) with
  | none => rfl
  | some v =>
    obtain ⟨i, hi, hk⟩ := hwf _ (alookup_mem l _ v hl)
    exact absurd (taskIdFor_inj hk.symm) (by omega)

theorem tasksWF_aupdate (l : List (List Char × RMTask)) (k : List Char)
    (f : RMTask → RMTask) (hwf : TasksWF l) : TasksWF (aupdate l k f) := by
  intro p hp
  obtain ⟨v, hv⟩ := mem_aupdate l k f p hp
  obtain ⟨i, hi, hk⟩ := hwf (p.1, v) hv
  exact ⟨i, by rw [aupdate_length]; exact hi, hk⟩

theorem tasksWF_append (l : List (List Char × RMTask)) (t : RMTask)
    (hwf : TasksWF l) : TasksWF (l ++ [(taskIdFor l.length, t)]) := by
  intro p hp
  rw [List.length_append, List.length_singleton]
  rcases List.mem_append.mp hp with h | h
  · obtain ⟨i, hi, hk⟩ := hwf p h
    exact ⟨i, by omega, hk⟩
  · obtain rfl : p = (taskIdFor l.length, t) := by simpa using h
    exact ⟨l.length, by omega, rfl⟩

theorem statusAt_assign_ne (s : RMState) (tid : List Char) (host : String)
    (tid' : List Char) (h : tid' ≠ tid) :
    statusAt (assignTaskToNode s tid host).1 tid' = statusAt s tid' := by
  cases ht : alookup s.tasks tid with
  | none => simp only [assignTaskToNode, ht]
  | some t =>
    cases hc : alookup s.conns host with
    | none => simp only [assignTaskToNode, ht, hc]
    | some conn =>
      simp only [assignTaskToNode, ht, hc, connectionManagerSendMessage, statusAt]
      rw [alookup_aupdate_ne _ _ _ _ h]

theorem statusAt_assign_self (s : RMState) (tid : List Char) (host : String) :
    statusAt (assignTaskToNode s tid host).1 tid = statusAt s tid
    ∨ ((statusAt s tid).isSome
        ∧ statusAt (assignTaskToNode s tid host).1 tid = some .failed) := by
  cases ht : alookup s.tasks tid with
  | none => left; simp only [assignTaskToNode, ht]
  | some t =>
    cases hc : alookup s.conns host with
    | none => left; simp only [assignTaskToNode, ht, hc]
    | some conn =>
      right
      constructor
      · rw [statusAt, ht]; rfl
      · simp only [assignTaskToNode, ht, hc, connectionManagerSendMessage, statusAt]
        rw [alookup_aupdate_self, ht]
        rfl

theorem statusAt_schedule_ne (s : RMState) (tid tid' : List Char) (h : tid' ≠ tid) :
    statusAt (scheduleTask s tid) tid' = statusAt s tid' := by
  cases ht : alookup s.tasks tid with
  | none => simp only [scheduleTask, ht]
  | some t =>
    by_cases hp : t.status ≠ TaskStatus.pending
    · simp only [scheduleTask, ht, if_pos hp]
    · simp only [scheduleTask, ht, if_neg hp]
      cases findAvailableNode s.conns t.required_cpu t.required_memory with
      | none => rfl
      | some host => exact statusAt_assign_ne s tid host tid' h

theorem statusAt_schedule_self (s : RMState) (tid : List Char) :
    statusAt (scheduleTask s tid) tid = statusAt s tid
    ∨ (statusAt s tid = some .pending
        ∧ statusAt (scheduleTask s tid) tid = some .failed) := by
  cases ht : alookup s.tasks tid with
  | none => left; simp only [scheduleTask, ht]
  | some t =>
    by_cases hp : t.status ≠ TaskStatus.pending
    · left; simp only [scheduleTask, ht, if_pos hp]
    · push_neg at hp
      have hs : scheduleTask s tid
          = match findAvailableNode s.conns t.required_cpu t.required_memory with
            | some host => (assignTaskToNode s tid host).1
            | none => s := by
        simp only [scheduleTask, ht]
        rw [if_neg (by simp [hp])]
      rw [hs]
      cases findAvailableNode s.conns t.required_cpu t.required_memory with
      | none => left; rfl
      | some host =>
        rcases statusAt_assign_self s tid host with heq | ⟨hsome, hfail⟩
        · left; exact heq
        · right
          exact ⟨by rw [statusAt, ht, Option.map_some', hp], hfail⟩

theorem statusAt_monitor_ne (s : RMState) (tid tid' : List Char) (h : tid' ≠ tid) :
    statusAt (monitorTask s tid) tid' = statusAt s tid' := by
  cases ht : alookup s.tasks tid with
  | none => simp only [monitorTask, ht]
  | some t =>
    cases hn : t.assigned_node with
    | none => simp only [monitorTask, ht, hn]
    | some host =>
      cases hc : alookup s.conns host with
      | none => simp only [monitorTask, ht, hn, hc]
      | some conn =>
        by_cases hr : t.status = TaskStatus.running
        · simp only [monitorTask, ht, hn, hc, if_pos hr,
            connectionManagerSendMessage, statusAt]
          rw [alookup_aupdate_ne _ _ _ _ h]
        · simp only [monitorTask, ht, hn, hc, if_neg hr]

theorem statusAt_monitor_self (s : RMState) (tid : List Char) :
    statusAt (monitorTask s tid) tid = statusAt s tid
    ∨ (statusAt s tid = some .running
        ∧ statusAt (monitorTask s tid) tid = some .failed) := by
  cases ht : alookup s.tasks tid with
  | none => left; simp only [monitorTask, ht]
  | some t =>
    cases hn : t.assigned_node with
    | none => left; simp only [monitorTask, ht, hn]
    | some host =>
      cases hc : alookup s.conns host with
      | none => left; simp only [monitorTask, ht, hn, hc]
      | some conn =>
        by_cases hr : t.status = TaskStatus.running
        · right
          constructor
          · rw [statusAt, ht, Option.map_some', hr]
          · simp only [monitorTask, ht, hn, hc, if_pos hr,
              connectionManagerSendMessage, statusAt]
            rw [alookup_aupdate_self, ht]
            rfl
        · left; simp only [monitorTask, ht, hn, hc, if_neg hr]

theorem assign_tasks_cases (s : RMState) (tid : List Char) (host : String) :
    (assignTaskToNode s tid host).1.tasks = s.tasks
    ∨ (assignTaskToNode s tid host).1.tasks
        = aupdate s.tasks tid (fun t => { t with status := .failed }) := by
  cases ht : alookup s.tasks tid with
  | none => left; simp only [assignTaskToNode, ht]
  | some t =>
    cases hc : alookup s.conns host with
    | none => left; simp only [assignTaskToNode, ht, hc]
    | some conn =>
      right
      simp only [assignTaskToNode, ht, hc, connectionManagerSendMessage]

theorem schedule_tasks_cases (s : RMState) (tid : List Char) :
    (scheduleTask s tid).tasks = s.tasks
    ∨ (scheduleTask s tid).tasks
        = aupdate s.tasks tid (fun t => { t with status := .failed }) := by
  cases ht : alookup s.tasks tid with
  | none => left; simp only [scheduleTask, ht]
  | some t =>
    by_cases hp : t.status ≠ TaskStatus.pending
    · left; simp only [scheduleTask, ht, if_pos hp]
    · have hs : scheduleTask s tid
          = match findAvailableNode s.conns t.required_cpu t.required_memory with
            | some host => (assignTaskToNode s tid host).1
            | none => s := by
        simp only [scheduleTask, ht]
        rw [if_neg hp]
      rw [hs]
      cases findAvailableNode s.conns t.required_cpu t.required_memory with
      | none => left; rfl
      | some host => exact assign_tasks_cases s tid host

theorem monitor_tasks_cases (s : RMState) (tid : List Char) :
    (monitorTask s tid).tasks = s.tasks
    ∨ (monitorTask s tid).tasks
        = aupdate s.tasks tid (fun t => { t with status := .failed }) := by
  cases ht : alookup s.tasks tid with
  | none => left; simp only [monitorTask, ht]
  | some t =>
    cases hn : t.assigned_node with
    | none => left; simp only [monitorTask, ht, hn]
    | some host =>
      cases hc : alookup s.conns host with
      | none => left; simp only [monitorTask, ht, hn, hc]
      | some conn =>
        by_cases hr : t.status = TaskStatus.running
        · right
          simp only [monitorTask, ht, hn, hc, if_pos hr, connectionManagerSendMessage]
        · left; simp only [monitorTask, ht, hn, hc, if_neg hr]

/-- C6: every scheduler operation — `submit_task` (including its
immediate scheduling attempt), `_schedule_task`, the assignment step as
invoked on a pending task, and the monitor loop — takes each task's
status only along the allowed edges pending → running → {completed,
failed} (with pending → failed also allowed) and never removes a task;
each operation also preserves the task-table well-formedness that makes
the `task_<size>` id fresh. -/
theorem task_status_monotonic (s : RMState) (hwf : TasksWF s.tasks)
    (tid tid' : List Char) (host : String) (fn : List Char) (args : List Json)
    (kwargs : List (List Char × Json)) (rc rm : ℚ) :
    allowedOpt (statusAt s tid') (statusAt (submitTask s fn args kwargs rc rm).2 tid') = true
    ∧ allowedOpt (statusAt s tid') (statusAt (scheduleTask s tid) tid') = true
    ∧ (statusAt s tid = some .pending →
        allowedOpt (statusAt s tid') (statusAt (assignTaskToNode s tid host).1 tid') = true)
    ∧ allowedOpt (statusAt s tid') (statusAt (monitorTask s tid) tid') = true
    ∧ TasksWF (submitTask s fn args kwargs rc rm).2.tasks
    ∧ TasksWF (scheduleTask s tid).tasks
    ∧ TasksWF (monitorTask s tid).tasks := by
  have hfresh : alookup s.tasks (taskIdFor s.tasks.length) = none := tasksWF_fresh hwf
  set tid0 := taskIdFor s.tasks.length with htid0
  set t0 := mkTask tid0 fn args kwargs rc rm with ht0
  set s1 : RMState := { s with tasks := ainsert s.tasks tid0 t0 } with hs1
  have hsub2 : (submitTask s fn args kwargs rc rm).2 = scheduleTask s1 tid0 := rfl
  have happ : ainsert s.tasks tid0 t0 = s.tasks ++ [(tid0, t0)] :=
    ainsert_of_alookup_none _ _ _ hfresh
  refine ⟨?_, ?_, ?_, ?_, ?_, ?_, ?_⟩
  · -- submit_task
    rw [hsub2]
    by_cases he : tid' = tid0
    · rw [he, show statusAt s tid0 = none by rw [statusAt, hfresh]; rfl]
      rfl
    · rw [statusAt_schedule_ne _ _ _ he]
      rw [show statusAt s1 tid' = statusAt s tid' by
        rw [statusAt, statusAt, hs1]
        simp only
        rw [alookup_ainsert_ne _ _ _ _ he]]
      exact allowedOpt_refl _
  · -- _schedule_task
    by_cases he : tid' = tid
    · subst he
      rcases statusAt_schedule_self s tid' with heq | ⟨hpend, hfail⟩
      · rw [heq]; exact allowedOpt_refl _
      · rw [hpend, hfail]; rfl
    · rw [statusAt_schedule_ne _ _ _ he]; exact allowedOpt_refl _
  · -- assignment step on a pending task
    intro hpend
    by_cases he : tid' = tid
    · subst he
      rcases statusAt_assign_self s tid' host with heq | ⟨_, hfail⟩
      · rw [heq]; exact allowedOpt_refl _
      · rw [hpend, hfail]; rfl
    · rw [statusAt_assign_ne _ _ _ _ he]; exact allowedOpt_refl _
  · -- monitor loop
    by_cases he : tid' = tid
    · subst he
      rcases statusAt_monitor_self s tid' with heq | ⟨hrun, hfail⟩
      · rw [heq]; exact allowedOpt_refl _
      · rw [hrun, hfail]; rfl
    · rw [statusAt_monitor_ne _ _ _ he]; exact allowedOpt_refl _
  · -- submit_task preserves well-formedness
    rw [hsub2]
    have hwf1 : TasksWF (s.tasks ++ [(tid0, t0)]) := tasksWF_append _ _ hwf
    have hs1t : s1.tasks = s.tasks ++ [(tid0, t0)] := by rw [hs1]; exact happ
    rcases schedule_tasks_cases s1 tid0 with hcase | hcase <;> rw [hcase, hs1t]
    · exact hwf1
    · exact tasksWF_aupdate _ _ _ hwf1
  · -- _schedule_task preserves well-formedness
    rcases schedule_tasks_cases s tid with hcase | hcase <;> rw [hcase]
    · exact hwf
    · exact tasksWF_aupdate _ _ _ hwf
  · -- monitor preserves well-formedness
    rcases monitor_tasks_cases s tid with hcase | hcase <;> rw [hcase]
    · exact hwf
    · exact tasksWF_aupdate _ _ _ hwf

/-- The initial scheduler state: empty task table, no peers. -/
def emptyRMState : RMState := ⟨[], []⟩

/-- Witness for C6: the monotonicity statement instantiated at the
initial state and concrete arguments. -/
theorem task_status_monotonic_witness :
    allowedOpt (statusAt emptyRMState ['x'])
        (statusAt (submitTask emptyRMState ['f'] [] [] 0 0).2 ['x']) = true
    ∧ allowedOpt (statusAt emptyRMState ['x'])
        (statusAt (scheduleTask emptyRMState ['t']) ['x']) = true
    ∧ (statusAt emptyRMState ['t'] = some .pending →
        allowedOpt (statusAt emptyRMState ['x'])
          (statusAt (assignTaskToNode emptyRMState ['t'] "h").1 ['x']) = true)
    ∧ allowedOpt (statusAt emptyRMState ['x'])
        (statusAt (monitorTask emptyRMState ['t']) ['x']) = true
    ∧ TasksWF (submitTask emptyRMState ['f'] [] [] 0 0).2.tasks
    ∧ TasksWF (scheduleTask emptyRMState ['t']).tasks
    ∧ TasksWF (monitorTask emptyRMState ['t']).tasks :=
  task_status_monotonic emptyRMState (by intro p hp; simp [emptyRMState] at hp)
    ['t'] ['x'] "h" ['f'] [] [] 0 0

/-! ## Task executor

Model of `executor.py`.  The task-listening loop iterates over the
peer table and reads from `conn.socket`, a field `NodeConnection` does
not have (see `nodeConnectionSocket`); `_handle_task` writes its
replies through the same missing field. -/

/-- The projection of a peer's `NodeConnection` record onto the field
the executor loop reads and writes: the liveness flag (the loop's only
other access, `conn.socket`, raises). -/
structure ExecPeerView where
  is_active : Bool
  deriving DecidableEq

/-- One pass of `TaskExecutor._listen_for_tasks` over the peer table
(`executor.py` lines 45–67).  For each live peer the loop evaluates
`self.connection_manager._receive_message_async(conn.socket)`; the
argument `conn.socket` raises `AttributeError`, the `except` branch
sets `conn.is_active = False`, and the loop continues with the next
peer.  Returns the updated records and the `task_id`s of the task
frames dispatched to `_handle_task` during the pass (none can be). -/
def listenPass : List (String × ExecPeerView) → List (String × ExecPeerView) × List (List Char)
  | [] => ([], [])
  | (h, conn) :: rest =>
    let step : ExecPeerView × List (List Char) :=
      if conn.is_active then
        match nodeConnectionSocket with
        | .ok m => nomatch m
        | .error _ => ({ conn with is_active := false }, [])
      else (conn, [])
    let tail := listenPass rest
    ((h, step.1) :: tail.1, step.2 ++ tail.2)

/-- C2: on every pass of the executor's task-listening loop, reading a
frame from a live peer's record raises (there is no `socket` field on
`NodeConnection`), the error handler clears the peer's `is_active`
flag, and no task frame is ever dispatched to a registered handler;
after the pass every peer record is inactive. -/
theorem listenPass_deactivates_and_never_dispatches
    (conns : List (String × ExecPeerView)) :
    listenPass conns = (conns.map fun p => (p.1, ⟨false⟩), []) := by
  induction conns with
  | nil => rfl
  | cons p rest ih =>
    obtain ⟨h, conn⟩ := p
    obtain ⟨a⟩ := conn
    rw [listenPass, ih]
    cases a <;> simp [nodeConnectionSocket]

/-- The semantics of a registered task handler (user functions are
opaque callables): given positional and keyword arguments it either
returns a JSON-encodable value or raises, in which case the string form
of the exception is recorded. -/
def Handler : Type := List Json → List (List Char × Json) → Except (List Char) Json

/-- The decoded `data` of a `task` frame (`executor.py`
lines 80–83). -/
structure TaskFrameData where
  task_id : List Char
  function : List Char
  args : List Json
  kwargs : List (List Char × Json)

/-- Model of `TaskExecutor._handle_task` (`executor.py` lines 72–125).
`handlers` is the registry `self._task_handlers` keyed by
`function.__name__`; `resourceOk` is the outcome of the psutil-backed
`hardware_info.is_resource_available` sample (external).  The body
computes the outcome (unknown function / insufficient resources /
handler result), but every reply is written via
`_send_message_async(conn.socket, …)` whose argument raises
`AttributeError`; the `except Exception` branch then attempts the
failure reply through `conn.socket` again, so the `AttributeError`
escapes the coroutine.  Returns the `task_status` frames actually
written and the exception escaping `_handle_task`. -/
def handleTask (handlers : List (List Char × Handler)) (resourceOk : Bool)
    (td : TaskFrameData) : List Json × Option PyErr :=
  let body : Except (List Char) Json :=
    match alookup handlers td.function with
    | none => .error (('U' :: 'n' :: 'k' :: 'n' :: 'o' :: 'w' :: 'n' :: ' ' ::
        'f' :: 'u' :: 'n' :: 'c' :: 't' :: 'i' :: 'o' :: 'n' :: ':' :: ' ' :: [])
        ++ td.function)
    | some f =>
      if !resourceOk then
        .error ('I' :: 'n' :: 's' :: 'u' :: 'f' :: 'f' :: 'i' :: 'c' :: 'i' ::
          'e' :: 'n' :: 't' :: ' ' :: 'r' :: 'e' :: 's' :: 'o' :: 'u' :: 'r' ::
          'c' :: 'e' :: 's' :: [])
      else f td.args td.kwargs
  match body with
  | .ok _ =>
    match nodeConnectionSocket with
    | .ok m => nomatch m
    | .error _ =>
      match nodeConnectionSocket with
      | .ok m => nomatch m
      | .error e2 => ([], some e2)
  | .error _ =>
    match nodeConnectionSocket with
    | .ok m => nomatch m
    | .error e2 => ([], some e2)

/-- C4 (code bug evaluation): for every task frame `_handle_task`
processes — whatever the handler table, the resource check, and the
handler outcome — not a single `task_status` reply is emitted on the
link, and an `AttributeError` escapes the handler coroutine: both the
success reply and the failure reply are addressed to the nonexistent
`conn.socket`. -/
theorem handleTask_never_replies (handlers : List (List Char × Handler))
    (resourceOk : Bool) (td : TaskFrameData) :
    handleTask handlers resourceOk td = ([], some .attributeError) := by
  rw [handleTask]
  cases alookup handlers td.function with
  | none => rfl
  | some f =>
    cases resourceOk with
    | false => rfl
    | true =>
      simp only [Bool.not_true, Bool.false_eq_true, if_false]
      cases f td.args td.kwargs with
      | ok r => rfl
      | error e => rfl

/-! ## Connection manager: handshake paths

Model of `ConnectionManager._handle_incoming_connection` and
`ConnectionManager.connect_to_node` (`connection.py`).  The peer table
`self.connections` is keyed by the hostname value taken from the
decoded handshake (server side) or by the supplied hostname string
(client side); keys are compared with Python `==`, modelled by
`Json.beq`. -/

/-- The JSON key `"type"`. -/
def typeKey : List Char := ['t', 'y', 'p', 'e']

/-- The JSON key `"data"`. -/
def dataKey : List Char := ['d', 'a', 't', 'a']

/-- The JSON key `"hostname"`. -/
def hostnameKey : List Char := ['h', 'o', 's', 't', 'n', 'a', 'm', 'e']

/-- The string `"handshake"`. -/
def handshakeStr : List Char := ['h', 'a', 'n', 'd', 's', 'h', 'a', 'k', 'e']

/-- The check `message.get('type') == 'handshake'` on a decoded frame.
A frame that is not an object makes `.get` raise `AttributeError`,
which the callers' `except` clauses turn into the same no-handshake
outcome, so both are `false` here. -/
def isHandshakeFrame (m : Json) : Bool :=
  match jGet m typeKey with
  | some (.str s) => s == handshakeStr
  | _ => false

/-- Whether a JSON value is hashable as a Python dict key (lists and
dicts are not; using one as a key raises `TypeError`). -/
def jhashable : Json → Bool
  | .arr _ => false
  | .obj _ => false
  | _ => true

/-- The `NodeConnection` record as installed in the peer table by the
handshake paths; the stream reader/writer halves are owned by the
surrounding connection and are not part of the value state. -/
structure PeerRecord where
  hostname : Json
  ip : String
  port : Nat
  hardware_info : Json
  is_active : Bool

/-- Model of `self.connections[key] = record` with Python `==` on keys. -/
def binsert : List (Json × PeerRecord) → Json → PeerRecord → List (Json × PeerRecord)
  | [], k, v => [(k, v)]
  | (k', v') :: rest, k, v =>
    if Json.beq k' k then (k, v) :: rest else (k', v') :: binsert rest k v

/-- The handshake message `{'type': 'handshake', 'data': info}` sent by
both handshake paths. -/
def mkHandshake (info : Json) : Json :=
  .obj [(typeKey, .str handshakeStr), (dataKey, info)]

/-- The state/effects of one run of
`_handle_incoming_connection`: the new peer table, the frames written
back on the accepted socket, and whether the accepted socket's writer
was closed when the handler returned. -/
structure IncomingResult where
  conns : List (Json × PeerRecord)
  sent : List Json
  writerClosed : Bool

/-- The `try`/`except` body of `_handle_incoming_connection`
(`connection.py` lines 98–120): require a truthy decoded frame of type
handshake, take `message['data']` (a missing key raises `KeyError`,
caught by the `except`), take `.get('hostname')` (raises when `data`
is not a dict; `None` when the key is absent), and on a truthy,
hashable hostname install the record and send the handshake reply.
Every failure path leaves the table unchanged and sends nothing. -/
def handleIncomingCore (conns : List (Json × PeerRecord))
    (firstFrame : Option Json) (peerIp : String) (peerPort : Nat)
    (localInfo : Json) : List (Json × PeerRecord) × List Json :=
  match firstFrame with
  | none => (conns, [])
  | some m =>
    if jtruthy m && isHandshakeFrame m then
      match jGet m dataKey with
      | none => (conns, [])
      | some d =>
        match jGet d hostnameKey with
        | none => (conns, [])
        | some hv =>
          if jtruthy hv then
            if jhashable hv then
              (binsert conns hv ⟨hv, peerIp, peerPort, d, true⟩,
                [mkHandshake localInfo])
            else (conns, [])
          else (conns, [])
    else (conns, [])

/-- Model of `ConnectionManager._handle_incoming_connection`
(`connection.py` lines 95–123): the `try`/`except` body followed by the
unconditional `finally: writer.close()`. -/
def handleIncomingConnection (conns : List (Json × PeerRecord))
    (firstFrame : Option Json) (peerIp : String) (peerPort : Nat)
    (localInfo : Json) : IncomingResult :=
  let r := handleIncomingCore conns firstFrame peerIp peerPort localInfo
  ⟨r.1, r.2, true⟩

/-- C3: the server-side incoming-connection handler closes the
accepted socket's writer on every path — in particular after a
successful handshake, in which case the peer record it installed (and
the handshake reply it sent) refer to a transport whose writer has been
closed by the time the handler returns. -/
theorem handleIncoming_closes_writer (conns : List (Json × PeerRecord))
    (frame : Option Json) (ip : String) (port : Nat) (localInfo : Json) :
    (handleIncomingConnection conns frame ip port localInfo).writerClosed = true
    ∧ (∀ m d hv, frame = some m → jtruthy m = true → isHandshakeFrame m = true →
        jGet m dataKey = some d → jGet d hostnameKey = some hv →
        jtruthy hv = true → jhashable hv = true →
        (handleIncomingConnection conns frame ip port localInfo).conns
            = binsert conns hv ⟨hv, ip, port, d, true⟩
          ∧ (handleIncomingConnection conns frame ip port localInfo).sent
              = [mkHandshake localInfo]) := by
  refine ⟨rfl, ?_⟩
  intro m d hv hfm htr hhs hd hhv htv hh
  subst hfm
  refine ⟨?_, ?_⟩ <;>
    simp only [handleIncomingConnection, handleIncomingCore, htr, hhs, hd, hhv,
      htv, hh, Bool.and_self, if_true, if_pos]

/-- A sample hardware snapshot carried by a handshake. -/
def sampleInfo : Json :=
  .obj [(hostnameKey, .str ['n', 'o', 'd', 'e', '-', 'b']),
        (['c', 'p', 'u'], .num 8)]

/-- Witness for C3: a successful handshake evaluated concretely — the
record is installed, the reply is sent, and the writer is closed. -/
theorem handleIncoming_closes_writer_witness :
    (handleIncomingConnection [] (some (mkHandshake sampleInfo)) "10.0.0.7" 40000
      (.obj [])).writerClosed = true
    ∧ (handleIncomingConnection [] (some (mkHandshake sampleInfo)) "10.0.0.7" 40000
        (.obj [])).conns
        = binsert [] (.str ['n', 'o', 'd', 'e', '-', 'b'])
            ⟨.str ['n', 'o', 'd', 'e', '-', 'b'], "10.0.0.7", 40000, sampleInfo, true⟩
    ∧ (handleIncomingConnection [] (some (mkHandshake sampleInfo)) "10.0.0.7" 40000
        (.obj [])).sent = [mkHandshake (.obj [])] := by
  obtain ⟨h1, h2⟩ := handleIncoming_closes_writer [] (some (mkHandshake sampleInfo))
    "10.0.0.7" 40000 (.obj [])
  obtain ⟨h3, h4⟩ := h2 (mkHandshake sampleInfo) sampleInfo
    (.str ['n', 'o', 'd', 'e', '-', 'b']) rfl rfl rfl rfl rfl rfl rfl
  exact ⟨h1, h3, h4⟩

/-- Model of `ConnectionManager.connect_to_node` (`connection.py`
lines 57–93).  `opened` is whether `asyncio.open_connection`
succeeded (it raises otherwise, caught by the outer `except`);
`response` is the result of `_receive_message_async` (which returns
`None` on any receive failure); the local handshake write goes through
`_send_message_async`, which swallows its own errors and touches no
state.  A handshake response installs the record under the supplied
hostname and returns true; every other path returns false with the
table unchanged. -/
def connectToNode (conns : List (Json × PeerRecord)) (hostname ip : String)
    (cmPort : Nat) (opened : Bool) (response : Option Json) :
    Bool × List (Json × PeerRecord) :=
  if !opened then (false, conns)
  else
    match response with
    | none => (false, conns)
    | some r =>
      if jtruthy r && isHandshakeFrame r then
        match jGet r dataKey with
        | none => (false, conns)
        | some d =>
          (true, binsert conns (.str hostname.data)
            ⟨.str hostname.data, ip, cmPort, d, true⟩)
      else (false, conns)

/-- C9: whenever `connect_to_node` returns false — connection failure,
receive failure, a non-handshake reply, or a reply without `data` — the
peer table is unchanged: no partial record is installed for the
supplied hostname. -/
theorem connectToNode_failure_no_state (conns : List (Json × PeerRecord))
    (hostname ip : String) (cmPort : Nat) (opened : Bool) (response : Option Json)
    (h : (connectToNode conns hostname ip cmPort opened response).1 = false) :
    (connectToNode conns hostname ip cmPort opened response).2 = conns := by
  rw [connectToNode.eq_def] at h ⊢
  cases opened with
  | false => rfl
  | true =>
    cases response with
    | none => rfl
    | some r =>
      simp only [Bool.not_true, Bool.false_eq_true, if_false] at h ⊢
      by_cases hr : (jtruthy r && isHandshakeFrame r) = true
      · rw [if_pos hr] at h ⊢
        cases hd : jGet r dataKey with
        | none => rfl
        | some d => rw [hd] at h; exact absurd h (by simp)
      · rw [if_neg hr]

/-- Witness for C9: a failed dial evaluated concretely — the table is
untouched. -/
theorem connectToNode_failure_no_state_witness :
    (connectToNode [] "node-b" "10.0.0.5" 50001 false none).2 = [] :=
  connectToNode_failure_no_state [] "node-b" "10.0.0.5" 50001 false none rfl

/-! ## Discovery service

Model of `discovery.py`.  The broadcast loop is driven by the sequence
of per-iteration send outcomes; the listen loop by the sequence of
datagrams received while running (payload bytes and sender ip). -/

/-- Model of `json.loads(data.decode())` on a datagram payload. -/
def parseDatagram (payload : List Nat) : Option Json :=
  (utf8Decode payload).bind loadsJson

/-- Model of `json.loads(data.decode())['hostname']`: `none` models both a
decode/parse failure and a missing `hostname` key (a `KeyError` /
`TypeError`). -/
def datagramHostname (payload : List Nat) : Option Json :=
  (parseDatagram payload).bind fun j => jGet j hostnameKey

/-- Model of `self.nodes.add((hostname, addr))` on the discovery set, with
Python `==` equality. -/
def setAdd (nodes : List (Json × String)) (x : Json × String) :
    List (Json × String) :=
  if nodes.any fun y => Json.beq y.1 x.1 && (y.2 == x.2) then nodes
  else nodes ++ [x]

/-- Model of `NodeDiscovery.listen_for_nodes` (`discovery.py`
lines 43–56): process the received datagrams in order; decode and
parse each, read `node_info['hostname']`, and add `(hostname,
sender-ip)` to the set.  Any exception — malformed JSON, missing key,
unhashable hostname — is logged and the `break` EXITS the loop,
dropping all later datagrams. -/
def listenLoopCode : List (List Nat × String) → List (Json × String) → List (Json × String)
  | [], nodes => nodes
  | (payload, addr) :: rest, nodes =>
    match datagramHostname payload with
    | some hv =>
      if jhashable hv then listenLoopCode rest (setAdd nodes (hv, addr))
      else nodes
    | none => nodes

/-- The listener as the claim words it (for comparison with
`listenLoopCode` only): a malformed datagram is silently dropped and
the loop continues with the next datagram. -/
def listenLoopClaim : List (List Nat × String) → List (Json × String) → List (Json × String)
  | [], nodes => nodes
  | (payload, addr) :: rest, nodes =>
    match datagramHostname payload with
    | some hv =>
      if jhashable hv then listenLoopClaim rest (setAdd nodes (hv, addr))
      else listenLoopClaim rest nodes
    | none => listenLoopClaim rest nodes

/-- Model of `NodeDiscovery.broadcast_presence` (`discovery.py`
lines 30–41) driven by the per-iteration send outcomes while
`_running` holds; returns the number of datagrams actually sent.  A
send error is logged and the `break` EXITS the loop. -/
def broadcastLoopCode : List Bool → Nat → Nat
  | [], n => n
  | ok :: rest, n => if ok then broadcastLoopCode rest (n + 1) else n

/-- The broadcaster as the claim words it (for comparison only): a
send error is logged and the loop continues after the next interval
tick. -/
def broadcastLoopClaim : List Bool → Nat → Nat
  | [], n => n
  | ok :: rest, n =>
    if ok then broadcastLoopClaim rest (n + 1) else broadcastLoopClaim rest n

/-- A datagram whose payload is not JSON (the text `not`). -/
def badDatagram : List Nat := utf8Encode ['n', 'o', 't']

/-- A well-formed discovery datagram `{"hostname": "b"}`. -/
def goodDatagram : List Nat := utf8Encode (serJson (.obj [(hostnameKey, .str ['b'])]))

theorem datagramHostname_good : datagramHostname goodDatagram = some (.str ['b']) := by
  rw [datagramHostname, parseDatagram, goodDatagram, utf8Decode_encode,
    Option.some_bind, loadsJson_serJson, Option.some_bind]
  rfl

theorem datagramHostname_bad : datagramHostname badDatagram = none := by
  rw [datagramHostname, parseDatagram, badDatagram, utf8Decode_encode,
    Option.some_bind]
  have hp : parseJsonAux ((['n', 'o', 't'] : List Char).length + 1) ['n', 'o', 't']
      = none := by
    rw [show (['n', 'o', 't'] : List Char).length + 1 = 3 + 1 from rfl,
      parseJsonAux_n]
    rfl
  rw [loadsJson, hp]
  rfl

/-- C8 counterexample: with a malformed datagram followed by a
well-formed one, the coded listener stops at the malformed datagram and
never records the following node, while the behaviour the claim
describes would record it; likewise the coded broadcaster stops at a
send error instead of continuing.  So the claim is false of the
code. -/
theorem discovery_loop_claim_counterexample :
    listenLoopCode [(badDatagram, "10.0.0.2"), (goodDatagram, "10.0.0.3")] [] = []
    ∧ listenLoopClaim [(badDatagram, "10.0.0.2"), (goodDatagram, "10.0.0.3")] []
        = [(.str ['b'], "10.0.0.3")]
    ∧ listenLoopCode [(badDatagram, "10.0.0.2"), (goodDatagram, "10.0.0.3")] []
        ≠ listenLoopClaim [(badDatagram, "10.0.0.2"), (goodDatagram, "10.0.0.3")] []
    ∧ broadcastLoopCode [false, true] 0 = 0
    ∧ broadcastLoopClaim [false, true] 0 = 1
    ∧ broadcastLoopCode [false, true] 0 ≠ broadcastLoopClaim [false, true] 0 := by
  have h1 : listenLoopCode [(badDatagram, "10.0.0.2"), (goodDatagram, "10.0.0.3")] []
      = [] := by
    simp only [listenLoopCode, datagramHostname_bad]
  have h2 : listenLoopClaim [(badDatagram, "10.0.0.2"), (goodDatagram, "10.0.0.3")] []
      = [(.str ['b'], "10.0.0.3")] := by
    simp only [listenLoopClaim, datagramHostname_bad, datagramHostname_good]
    rfl
  refine ⟨h1, h2, ?_, rfl, rfl, by decide⟩
  rw [h1, h2]
  simp

/-- C8 amended: in the broadcast loop a send error ends the loop (a
successful send is counted and the loop continues); in the listen loop
a malformed datagram — decode failure, parse failure, missing
`hostname`, unhashable hostname — stops the listener without altering
the discovery set, while a well-formed datagram adds `(hostname,
sender-ip)` and the loop continues. -/
theorem discovery_loops_stop_on_error :
    (∀ rest n, broadcastLoopCode (false :: rest) n = n)
    ∧ (∀ rest n, broadcastLoopCode (true :: rest) n = broadcastLoopCode rest (n + 1))
    ∧ (∀ payload addr rest nodes, datagramHostname payload = none →
        listenLoopCode ((payload, addr) :: rest) nodes = nodes)
    ∧ (∀ payload addr rest nodes hv, datagramHostname payload = some hv →
        jhashable hv = true →
        listenLoopCode ((payload, addr) :: rest) nodes
          = listenLoopCode rest (setAdd nodes (hv, addr))) := by
  refine ⟨fun rest n => rfl, fun rest n => rfl, ?_, ?_⟩
  · intro payload addr rest nodes hbad
    simp only [listenLoopCode, hbad]
  · intro payload addr rest nodes hv hgood hh
    simp only [listenLoopCode, hgood, hh, if_pos]

/-- Witness for the amended C8: the listener evaluated at a malformed
and then a well-formed datagram. -/
theorem discovery_loops_stop_on_error_witness :
    listenLoopCode [(badDatagram, "10.0.0.2")] [] = []
    ∧ listenLoopCode [(goodDatagram, "10.0.0.3")] []
        = listenLoopCode [] (setAdd [] (.str ['b'], "10.0.0.3"))
    ∧ broadcastLoopCode [false] 0 = 0
    ∧ broadcastLoopCode [true] 0 = broadcastLoopCode [] 1 :=
  ⟨discovery_loops_stop_on_error.2.2.1 badDatagram "10.0.0.2" [] []
      datagramHostname_bad,
    discovery_loops_stop_on_error.2.2.2 goodDatagram "10.0.0.3" [] []
      (.str ['b']) datagramHostname_good rfl,
    discovery_loops_stop_on_error.1 [] 0,
    discovery_loops_stop_on_error.2.1 [] 0⟩

end Intrascale
